import Mathlib

/-!
# Conway's Game of Life (`life.cpp`): shallow embedding and properties

The program keeps its grids in `vector<vector<char> >` values that are passed by
reference and indexed with `operator[]`.  A grid is embedded as a list of rows,
every access is bounds checked, and an access outside a vector (undefined
behaviour in C++) makes the embedded function return `none`.  `boardSize` is a
natural number: for a negative `int` every loop condition of the program is
false at once, exactly as for `0`.

Cell symbols are the character literals of the source: `'O'` (alive), `'.'`
(dead) and `'l'` (wall).
-/

namespace Life

/-! ## Data model -/

/-- A `vector<vector<char> >`: the list of its rows. -/
abbrev Board := List (List Char)

/-- The two grids `tick`, `copyLiveBoard` and `copySnapshotBoard` receive by reference. -/
structure Boards where
  liveBoard : Board
  snapshotBoard : Board
deriving DecidableEq, Repr

/-- The value of `b[row][col]`, or `none` when an index is outside its vector. -/
def readCell (b : Board) (row col : Nat) : Option Char :=
  match b[row]? with
  | none => none
  | some r => r[col]?

/-- The assignment `b[row][col] = v`, or `none` when an index is outside its vector. -/
def writeCell (b : Board) (row col : Nat) (v : Char) : Option Board :=
  match b[row]? with
  | none => none
  | some r => if col < r.length then some (b.set row (r.set col v)) else none

/-- The assignment `liveBoard[row][col] = v` on a pair of grids. -/
def writeLive (s : Boards) (row col : Nat) (v : Char) : Option Boards :=
  match writeCell s.liveBoard row col v with
  | none => none
  | some b => some { s with liveBoard := b }

/-- The assignment `snapshotBoard[row][col] = v` on a pair of grids. -/
def writeSnapshot (s : Boards) (row col : Nat) (v : Char) : Option Boards :=
  match writeCell s.snapshotBoard row col v with
  | none => none
  | some b => some { s with snapshotBoard := b }

/-- The loop `for(int i = start; i < start + count; i++) body`, threading the state
and stopping with `none` as soon as the body does. -/
def forLoop {σ : Type} (body : Nat → σ → Option σ) : Nat → Nat → σ → Option σ
  | _, 0, s => some s
  | i, n + 1, s =>
    match body i s with
    | none => none
    | some t => forLoop body (i + 1) n t

/-- The construction `vector<vector<char> > board(boardSize, vector<char>(boardSize-1))`
of `main`, for `boardSize ≥ 1`: `boardSize` rows, each a value-initialised vector of
`boardSize-1` cells.  For `boardSize ≤ 0` the constructor throws and no grid exists; that
case is in `mainRandom` and `mainFile`, which call this function for `boardSize ≥ 1` only. -/
def allocBoard (boardSize : Nat) : Board :=
  List.replicate boardSize (List.replicate (boardSize - 1) (Char.ofNat 0))

/-! ## Operations -/

/-- The function `createLiveBoard`: four passes writing `'l'` along the top row, the
left column, the bottom row and the right column. -/
def createLiveBoard (liveBoard : Board) (boardSize : Nat) : Option Board := do
  -- top border
  let liveBoard ← forLoop (fun col b => writeCell b 0 col 'l') 0 boardSize liveBoard
  -- left border
  let liveBoard ← forLoop (fun row b => writeCell b row 0 'l') 0 boardSize liveBoard
  -- bottom border
  let liveBoard ← forLoop (fun col b => writeCell b (boardSize - 1) col 'l') 0 boardSize liveBoard
  -- right border
  forLoop (fun row b => writeCell b row (boardSize - 1) 'l') 0 boardSize liveBoard

/-- The function `copyLiveBoard`: `snapshotBoard[row][col] = liveBoard[row][col]` for all
`row`, `col` below `boardSize`. -/
def copyLiveBoard (s : Boards) (boardSize : Nat) : Option Boards :=
  forLoop (fun row => forLoop (fun col s =>
    match readCell s.liveBoard row col with
    | none => none
    | some v => writeSnapshot s row col v) 0 boardSize) 0 boardSize s

/-- The function `copySnapshotBoard`: `liveBoard[row][col] = snapshotBoard[row][col]` for
all `row`, `col` below `boardSize`. -/
def copySnapshotBoard (s : Boards) (boardSize : Nat) : Option Boards :=
  forLoop (fun row => forLoop (fun col s =>
    match readCell s.snapshotBoard row col with
    | none => none
    | some v => writeLive s row col v) 0 boardSize) 0 boardSize s

/-- One line `if(liveBoard[row][col] == 'O'){numLivingNeighbors++;}` of `tick`. -/
def countLiving (liveBoard : Board) (row col : Nat) (numLivingNeighbors : Nat) : Option Nat :=
  match readCell liveBoard row col with
  | none => none
  | some v => some (if v = 'O' then numLivingNeighbors + 1 else numLivingNeighbors)

/-- The eight neighbour tests of `tick`, in the order of the source (the same eight lines
stand in both branches of `tick`), starting from `numLivingNeighbors = 0`. -/
def livingNeighbors (liveBoard : Board) (row col : Nat) : Option Nat := do
  let numLivingNeighbors := 0
  let numLivingNeighbors ← countLiving liveBoard (row - 1) (col - 1) numLivingNeighbors
  let numLivingNeighbors ← countLiving liveBoard row (col - 1) numLivingNeighbors
  let numLivingNeighbors ← countLiving liveBoard (row + 1) (col - 1) numLivingNeighbors
  let numLivingNeighbors ← countLiving liveBoard (row + 1) col numLivingNeighbors
  let numLivingNeighbors ← countLiving liveBoard (row + 1) (col + 1) numLivingNeighbors
  let numLivingNeighbors ← countLiving liveBoard row (col + 1) numLivingNeighbors
  let numLivingNeighbors ← countLiving liveBoard (row - 1) (col + 1) numLivingNeighbors
  countLiving liveBoard (row - 1) col numLivingNeighbors

/-- The body of the inner loop of `tick` for the cell `(row, col)`. -/
def tickCell (row col : Nat) (s : Boards) : Option Boards := do
  let cell ← readCell s.liveBoard row col
  if cell = 'O' then
    let numLivingNeighbors ← livingNeighbors s.liveBoard row col
    -- if less than 2 living neighbors, die
    let s ← if numLivingNeighbors < 2 then writeSnapshot s row col '.' else some s
    -- if 2-3 living neighbors, survive
    let s ← if numLivingNeighbors = 2 ∨ numLivingNeighbors = 3 then writeSnapshot s row col 'O'
      else some s
    -- if more than 3 living neighbors, die
    if numLivingNeighbors > 3 then writeSnapshot s row col '.' else some s
  else
    let cell ← readCell s.liveBoard row col
    if cell = '.' then
      let numLivingNeighbors ← livingNeighbors s.liveBoard row col
      if numLivingNeighbors = 3 then writeSnapshot s row col 'O' else some s
    else some s

/-- The function `tick`: `tickCell` for `row` and `col` from `1` up to `boardSize-2`. -/
def tick (s : Boards) (boardSize : Nat) : Option Boards :=
  forLoop (fun row => forLoop (tickCell row) 1 (boardSize - 1 - 1)) 1 (boardSize - 1 - 1) s

/-- One generation step as `main` performs it: `tick`, then `copySnapshotBoard`. -/
def generation (s : Boards) (boardSize : Nat) : Option Boards :=
  match tick s boardSize with
  | none => none
  | some t => copySnapshotBoard t boardSize

/-- The first `k` generation steps of the loop of `main`. -/
def generations (boardSize : Nat) : Nat → Boards → Option Boards
  | 0, s => some s
  | k + 1, s =>
    match generation s boardSize with
    | none => none
    | some t => generations boardSize k t

/-- The grid argument of `printLiveBoard` together with the text written to `cout`. -/
structure Display where
  liveBoard : Board
  cout : List Char
deriving DecidableEq, Repr

/-- The function `printLiveBoard`: for every row, `cout << liveBoard[row][col] << " "` for
every column, then `cout << endl`. -/
def printLiveBoard (d : Display) (boardSize : Nat) : Option Display :=
  forLoop (fun row d =>
    match forLoop (fun col d =>
        match readCell d.liveBoard row col with
        | none => none
        | some v => some { d with cout := d.cout ++ [v, ' '] }) 0 boardSize d with
    | none => none
    | some d => some { d with cout := d.cout ++ ['\n'] }) 0 boardSize d

/-- The inner loop of `stability` from column `col` on, `count` columns to go:
`some true` when the loop executes `return true`, `some false` when it runs to its end. -/
def stabilityCols (priorSnapshotBoard snapshotBoard : Board) (row : Nat) :
    Nat → Nat → Option Bool
  | _, 0 => some false
  | col, n + 1 =>
    match readCell priorSnapshotBoard row col, readCell snapshotBoard row col with
    | some a, some b =>
      if a = b then some true else stabilityCols priorSnapshotBoard snapshotBoard row (col + 1) n
    | _, _ => none

/-- The outer loop of `stability` from row `row` on, `count` rows to go. -/
def stabilityRows (priorSnapshotBoard snapshotBoard : Board) (boardSize : Nat) :
    Nat → Nat → Option Bool
  | _, 0 => some false
  | row, n + 1 =>
    match stabilityCols priorSnapshotBoard snapshotBoard row 1 (boardSize - 1 - 1) with
    | none => none
    | some true => some true
    | some false => stabilityRows priorSnapshotBoard snapshotBoard boardSize (row + 1) n

/-- The function `stability`: the result of the scan over the interior, `return false`
when both loops run to their end. -/
def stability (priorSnapshotBoard snapshotBoard : Board) (boardSize : Nat) : Option Bool :=
  stabilityRows priorSnapshotBoard snapshotBoard boardSize 1 (boardSize - 1 - 1)

/-- The input file stream: the characters not yet read and whether `failbit` is set. -/
structure IStream where
  input : List Char
  failed : Bool
deriving DecidableEq, Repr

/-- The characters `operator>>` skips before a token (`isspace` in the "C" locale). -/
def isspace (c : Char) : Bool :=
  c = ' ' || c = '\t' || c = '\n' || c = Char.ofNat 11 || c = Char.ofNat 12 || c = '\r'

/-- Drop leading whitespace, as formatted input does before extracting. -/
def skipws : List Char → List Char
  | [] => []
  | c :: cs => if isspace c then skipws cs else c :: cs

/-- The extraction `inf >> ch` of one `char`: nothing is read from a failed stream; at end
of input the stream fails and nothing is stored; otherwise the first character after the
leading whitespace is extracted. -/
def extractChar (inf : IStream) : IStream × Option Char :=
  if inf.failed then (inf, none)
  else
    match skipws inf.input with
    | [] => ({ input := [], failed := true }, none)
    | c :: rest => ({ input := rest, failed := false }, some c)

/-- The statement `inf >> liveBoard[row][col]`: the element reference is formed first (out
of bounds is `none`), then the extracted character, if any, is stored in it. -/
def seedCell (row col : Nat) (s : Board × IStream) : Option (Board × IStream) :=
  match readCell s.1 row col with
  | none => none
  | some _ =>
    match extractChar s.2 with
    | (inf, none) => some (s.1, inf)
    | (inf, some c) =>
      match writeCell s.1 row col c with
      | none => none
      | some b => some (b, inf)

/-- The function `seedFromFile`: `inf >> liveBoard[row][col]` for all `row`, `col` below
`boardSize`, in row-major order. -/
def seedFromFile (liveBoard : Board) (inf : IStream) (boardSize : Nat) :
    Option (Board × IStream) :=
  forLoop (fun row => forLoop (seedCell row) 0 boardSize) 0 boardSize (liveBoard, inf)

/-! ## Grids and cell access -/

/-- A grid of `R` rows with `C` cells in every row. -/
def isRect (b : Board) (R C : Nat) : Prop := b.length = R ∧ ∀ r ∈ b, r.length = C

instance (b : Board) (R C : Nat) : Decidable (isRect b R C) := by
  unfold isRect; infer_instance

/-- The interior positions `1 ≤ row, col ≤ N-2` of an `N×N` grid. -/
def interior (N r c : Nat) : Prop := 1 ≤ r ∧ r + 2 ≤ N ∧ 1 ≤ c ∧ c + 2 ≤ N

instance (N r c : Nat) : Decidable (interior N r c) := by
  unfold interior; infer_instance

/-- The border positions of an `N×N` grid: row `0`, row `N-1`, column `0`, column `N-1`. -/
def border (N r c : Nat) : Prop := r < N ∧ c < N ∧ (r = 0 ∨ r + 1 = N ∨ c = 0 ∨ c + 1 = N)

instance (N r c : Nat) : Decidable (border N r c) := by
  unfold border; infer_instance

/-- Every cell in row `0`, row `N-1`, column `0` and column `N-1` holds `'l'`. -/
def wallBorder (b : Board) (N : Nat) : Prop :=
  ∀ r, r < N → ∀ c, c < N → border N r c → readCell b r c = some 'l'

instance (b : Board) (N : Nat) : Decidable (wallBorder b N) := by
  unfold wallBorder; infer_instance

/-- The eight positions of the Moore neighbourhood of `(r, c)`. -/
def mooreNeighbours (r c : Nat) : List (Nat × Nat) :=
  [(r - 1, c - 1), (r - 1, c), (r - 1, c + 1), (r, c - 1), (r, c + 1),
   (r + 1, c - 1), (r + 1, c), (r + 1, c + 1)]

/-- The number of Moore neighbours of `(r, c)` that hold exactly `'O'` in `b`. -/
def aliveNeighbours (b : Board) (r c : Nat) : Nat :=
  (mooreNeighbours r c).countP (fun p => decide (readCell b p.1 p.2 = some 'O'))

/-- The symbol at `(r, c)`, with a default outside the grid. -/
def cellAt (b : Board) (r c : Nat) : Char := (readCell b r c).getD (Char.ofNat 0)

/-- The value `tick` leaves in `snapshotBoard[row][col]`, from the cell `cell` of
`liveBoard`, its count `n` of living neighbours and the previous snapshot value `old`. -/
def tickValue (cell : Char) (n : Nat) (old : Char) : Char :=
  if cell = 'O' then (if n = 2 ∨ n = 3 then 'O' else '.')
  else if cell = '.' ∧ n = 3 then 'O' else old


/-- A `5×5` grid with a wall border, a dead interior and a horizontal blinker in row 2. -/
def blinker5 : Board :=
  ["lllll".toList, "l...l".toList, "lOOOl".toList, "l...l".toList, "lllll".toList]

/-- The grid `blinker5` one generation later: the blinker stands in column 2. -/
def blinker5v : Board :=
  ["lllll".toList, "l.O.l".toList, "l.O.l".toList, "l.O.l".toList, "lllll".toList]

/-- An `N×N` grid with an `'l'` border whose interior holds `'O'` exactly at the
positions listed in `alive` and `'.'` everywhere else. -/
def hasPattern (b : Board) (N : Nat) (alive : List (Nat × Nat)) : Prop :=
  isRect b N N ∧ wallBorder b N ∧
    ∀ r, r < N → ∀ c, c < N → interior N r c →
      readCell b r c = some (if (r, c) ∈ alive then 'O' else '.')

instance (b : Board) (N : Nat) (alive : List (Nat × Nat)) : Decidable (hasPattern b N alive) := by
  unfold hasPattern; infer_instance

/-- The `10×10` grid with a wall border and a glider at `(1,2),(2,3),(3,1),(3,2),(3,3)`. -/
def glider10 : Board :=
  ["llllllllll".toList, "l.O......l".toList, "l..O.....l".toList, "lOOO.....l".toList,
   "l........l".toList, "l........l".toList, "l........l".toList, "l........l".toList,
   "l........l".toList, "llllllllll".toList]

/-- The grid `glider10` with the glider moved one row down and one column right. -/
def glider10moved : Board :=
  ["llllllllll".toList, "l........l".toList, "l..O.....l".toList, "l...O....l".toList,
   "l.OOO....l".toList, "l........l".toList, "l........l".toList, "l........l".toList,
   "l........l".toList, "llllllllll".toList]

/-- The lines of a text: the runs of characters ended by `'\n'`, and a last run without
one when it is not empty. -/
def textLines : List Char → List (List Char)
  | [] => []
  | c :: cs =>
    if c = '\n' then [] :: textLines cs
    else
      match textLines cs with
      | [] => [[c]]
      | l :: ls => (c :: l) :: ls

/-- A row as the rendering contract words it: its symbols separated by single spaces,
nothing else on the line. -/
def spacedLine (row : List Char) : List Char := List.intersperse ' ' row

/-- A row as `printLiveBoard` writes it: every symbol followed by a space. -/
def printedLine (row : List Char) : List Char := row.flatMap (fun v => [v, ' '])

/-- The `5×5` grid with a wall border and an all-dead interior. -/
def dead5 : Board :=
  ["lllll".toList, "l...l".toList, "l...l".toList, "l...l".toList, "lllll".toList]

/-- A `4×4` grid, the first of a pair that agrees at one interior cell only. -/
def stableA : Board := ["llll".toList, "lOOl".toList, "lOOl".toList, "llll".toList]

/-- A `4×4` grid that agrees with `stableA` at the interior cell `(2,2)` and differs from
it at the interior cells `(1,1)`, `(1,2)` and `(2,1)`. -/
def stableB : Board := ["llll".toList, "l..l".toList, "l.Ol".toList, "llll".toList]

/-- The whitespace-delimited tokens of a text: the maximal runs of characters that are not
whitespace, in order. -/
def tokens : List Char → List (List Char)
  | [] => []
  | c :: cs =>
    if isspace c then tokens cs
    else
      match cs with
      | [] => [[c]]
      | d :: ds =>
        if isspace d then [c] :: tokens (d :: ds)
        else
          match tokens (d :: ds) with
          | [] => [[c]]
          | t :: ts => (c :: t) :: ts

/-- The position `a` is one of the eight Moore neighbours of `(r, c)`. -/
def adjacent (r c : Nat) (a : Nat × Nat) : Prop :=
  r ≤ a.1 + 1 ∧ a.1 ≤ r + 1 ∧ c ≤ a.2 + 1 ∧ a.2 ≤ c + 1 ∧ (a.1 ≠ r ∨ a.2 ≠ c)

instance (r c : Nat) (a : Nat × Nat) : Decidable (adjacent r c a) := by
  unfold adjacent; infer_instance

/-- The `6×6` grid with a wall border and a `2×2` block in the corner of the interior. -/
def block6 : Board :=
  ["llllll".toList, "lOO..l".toList, "lOO..l".toList, "l....l".toList, "l....l".toList,
   "llllll".toList]

/-- One pass of the inner loop of `seedRandomly`: `randNum = rand() % 2`, then `'.'` for
`0` and `'O'` otherwise.  The state holds the grid and the number of calls of `rand()`
made so far; `rand k` is the value the `k`-th call returns after `srand(time(NULL))`. -/
def seedRandomCell (rand : Nat → Nat) (row col : Nat) (s : Board × Nat) :
    Option (Board × Nat) :=
  let randNum := rand s.2 % 2
  match (if randNum = 0 then writeCell s.1 row col '.' else writeCell s.1 row col 'O') with
  | none => none
  | some b => some (b, s.2 + 1)

/-- The function `seedRandomly`: `seedRandomCell` for `row` and `col` from `1` up to
`boardSize-2`; it returns the grid and the number of calls of `rand()`. -/
def seedRandomly (rand : Nat → Nat) (liveBoard : Board) (boardSize : Nat) :
    Option (Board × Nat) :=
  forLoop (fun row => forLoop (seedRandomCell rand row) 1 (boardSize - 1 - 1)) 1
    (boardSize - 1 - 1) (liveBoard, 0)

/-- The grids of the generation loop of `main` and the text written to `cout`. -/
structure LoopState where
  boards : Boards
  cout : List Char
deriving DecidableEq, Repr

/-- The line `cout << "Board after " << iteration << " iterations:" << endl`. -/
def header (iteration : Nat) : List Char :=
  "Board after ".toList ++ (Nat.repr iteration).toList ++ " iterations:".toList ++ ['\n']

/-- The body of the `do ... while` loop of `main` after `iteration++`: `tick`,
`copySnapshotBoard`, the header line and `printLiveBoard`.  The calls `cin.ignore()` and
`system("clear")` that end the body touch neither the grids nor `cout`. -/
def loopBody (boardSize iteration : Nat) (s : LoopState) : Option LoopState :=
  match tick s.boards boardSize with
  | none => none
  | some t =>
    match copySnapshotBoard t boardSize with
    | none => none
    | some u =>
      match printLiveBoard ⟨u.liveBoard, s.cout ++ header iteration⟩ boardSize with
      | none => none
      | some d => some ⟨{ u with liveBoard := d.liveBoard }, d.cout⟩

/-- The loop `do { iteration++; ... } while(iteration < 10000)` of `main` (the same text in
both branches), entered with the value `iteration`; it returns the final value of
`iteration` and the final state. -/
def generationLoop (boardSize : Nat) (iteration : Nat) (s : LoopState) :
    Option (Nat × LoopState) :=
  match loopBody boardSize (iteration + 1) s with
  | none => none
  | some t =>
    if _h : iteration + 1 < 10000 then generationLoop boardSize (iteration + 1) t
    else some (iteration + 1, t)
termination_by 10000 - iteration

/-- The branch `argc == 2` of `main` once its grids are constructed: `createLiveBoard`,
`seedRandomly`, `copyLiveBoard` and the generation loop from `iteration = 0`.  The grids
`main` constructs are `allocBoard boardSize`. -/
def randomMode (rand : Nat → Nat) (liveBoard snapshotBoard : Board) (boardSize : Nat) :
    Option (Nat × LoopState) :=
  match createLiveBoard liveBoard boardSize with
  | none => none
  | some created =>
    match seedRandomly rand created boardSize with
    | none => none
    | some (seeded, _) =>
      match copyLiveBoard ⟨seeded, snapshotBoard⟩ boardSize with
      | none => none
      | some s => generationLoop boardSize 0 ⟨s, []⟩

/-- The branch `argc == 3` of `main` once the file is open and its grids are constructed:
`seedFromFile`, `copyLiveBoard` and the generation loop from `iteration = 0`; there is no
call of `createLiveBoard`.  The grids `main` constructs are `allocBoard boardSize`; the
test `if(!inf)` that precedes this part is in `mainFile`. -/
def fileMode (inf : IStream) (liveBoard snapshotBoard : Board) (boardSize : Nat) :
    Option (Nat × LoopState) :=
  match seedFromFile liveBoard inf boardSize with
  | none => none
  | some (seeded, _) =>
    match copyLiveBoard ⟨seeded, snapshotBoard⟩ boardSize with
    | none => none
    | some s => generationLoop boardSize 0 ⟨s, []⟩

/-- An `N×N` grid with an `'l'` border whose interior cells all hold `'O'` or `'.'`. -/
def wellFormed (b : Board) (N : Nat) : Prop :=
  isRect b N N ∧ wallBorder b N ∧
    ∀ r, r < N → ∀ c, c < N → interior N r c →
      readCell b r c = some 'O' ∨ readCell b r c = some '.'

instance (b : Board) (N : Nat) : Decidable (wellFormed b N) := by
  unfold wellFormed; infer_instance

/-- The live grid after `k` generation steps from `snapshotBoard = liveBoard = L`. -/
def gridAfter (N : Nat) (L : Board) (k : Nat) : Board :=
  match generations N k ⟨L, L⟩ with
  | some s => s.liveBoard
  | none => []

/-- The text of iteration `i` of the loop of `main` started from the grid `L`: the header
with the number `i` and the grid after `i` generation steps as `printLiveBoard` writes it. -/
def frame (N : Nat) (L : Board) (i : Nat) : List Char :=
  header i ++ (gridAfter N L i).flatMap (fun row => printedLine row ++ ['\n'])

/-- The `3×3` grid holding `'l'` everywhere, as `createLiveBoard` leaves a `3×3` grid
apart from the middle cell. -/
def walls3 : Board := ["lll".toList, "lll".toList, "lll".toList]

/-- The `3×3` grid a seed file of eight `'.'` around one `'O'` describes. -/
def open3 : Board := ["...".toList, ".O.".toList, "...".toList]

/-- The `3×3` grid `open3` one generation later. -/
def open3next : Board := ["...".toList, "...".toList, "...".toList]

/-- The ways a run of `main` ends when no access leaves a vector. -/
inductive Outcome where
  /-- The constructor `vector<char>(boardSize-1)` throws for `boardSize ≤ 0` (the size
  converts to a huge `size_t`); `main` catches nothing. -/
  | lengthError
  /-- The test `if(!inf)` holds: `File failed to open.` is printed and `main` returns. -/
  | fileFailed
  /-- The loop is left with this value of `iteration` and this state. -/
  | finished (iteration : Nat) (s : LoopState)
deriving DecidableEq, Repr

/-- The branch `argc == 2` of `main` with `boardSize = atoi(argv[1])`: the grids are
constructed as `allocBoard` says, which throws for `boardSize ≤ 0`, and `randomMode` runs
on them (the third grid `priorSnapshotBoard` is never used). -/
def mainRandom (rand : Nat → Nat) (boardSize : Int) : Option Outcome :=
  if boardSize ≤ 0 then some Outcome.lengthError
  else
    match randomMode rand (allocBoard boardSize.toNat) (allocBoard boardSize.toNat)
        boardSize.toNat with
    | none => none
    | some r => some (Outcome.finished r.1 r.2)

/-- The branch `argc == 3` of `main` with the stream `inf` of `argv[1]` and
`boardSize = atoi(argv[2])`: the early return of `if(!inf)`, then the construction of the
grids as `allocBoard` says, which throws for `boardSize ≤ 0`, then `fileMode` on them. -/
def mainFile (inf : IStream) (boardSize : Int) : Option Outcome :=
  if inf.failed then some Outcome.fileFailed
  else if boardSize ≤ 0 then some Outcome.lengthError
  else
    match fileMode inf (allocBoard boardSize.toNat) (allocBoard boardSize.toNat)
        boardSize.toNat with
    | none => none
    | some r => some (Outcome.finished r.1 r.2)

theorem readCell_isSome {b : Board} {R C r c : Nat} (h : isRect b R C) (hr : r < R)
    (hc : c < C) : ∃ v, readCell b r c = some v := by
  obtain ⟨hl, hrow⟩ := h
  have hr' : r < b.length := by omega
  have hlen : (b[r]).length = C := hrow _ (List.getElem_mem _)
  refine ⟨(b[r])[c], ?_⟩
  simp [readCell, List.getElem?_eq_getElem hr', List.getElem?_eq_getElem (hlen ▸ hc)]

theorem readCell_lt {b : Board} {R C r c : Nat} {v : Char} (h : isRect b R C)
    (hv : readCell b r c = some v) : r < R ∧ c < C := by
  obtain ⟨hl, hrow⟩ := h
  unfold readCell at hv
  cases hb : b[r]? with
  | none => simp [hb] at hv
  | some row =>
    simp only [hb] at hv
    obtain ⟨hr, hrw⟩ := List.getElem?_eq_some_iff.mp hb
    obtain ⟨hc, -⟩ := List.getElem?_eq_some_iff.mp hv
    have : row.length = C := hrow row (hrw ▸ List.getElem_mem _)
    omega

theorem writeCell_isSome {b : Board} {R C r c : Nat} (v : Char) (h : isRect b R C)
    (hr : r < R) (hc : c < C) : ∃ b', writeCell b r c v = some b' := by
  obtain ⟨hl, hrow⟩ := h
  have hr' : r < b.length := by omega
  have hlen : (b[r]).length = C := hrow _ (List.getElem_mem _)
  simp [writeCell, List.getElem?_eq_getElem hr', hlen, hc]

theorem writeCell_rect {b b' : Board} {R C r c : Nat} {v : Char}
    (h : writeCell b r c v = some b') (hb : isRect b R C) : isRect b' R C := by
  obtain ⟨hl, hrow⟩ := hb
  unfold writeCell at h
  cases hbr : b[r]? with
  | none => simp [hbr] at h
  | some row =>
    simp only [hbr] at h
    split at h
    · cases h
      obtain ⟨hr, hrw⟩ := List.getElem?_eq_some_iff.mp hbr
      refine ⟨by simpa using hl, ?_⟩
      intro x hx
      rcases List.mem_or_eq_of_mem_set hx with hx | hx
      · exact hrow x hx
      · subst hx
        have : row.length = C := hrow row (hrw ▸ List.getElem_mem _)
        simpa using this
    · cases h

theorem readCell_writeCell {b b' : Board} {r c : Nat} {v : Char}
    (h : writeCell b r c v = some b') (r' c' : Nat) :
    readCell b' r' c' = if r' = r ∧ c' = c then some v else readCell b r' c' := by
  unfold writeCell at h
  cases hbr : b[r]? with
  | none => simp [hbr] at h
  | some row =>
    simp only [hbr] at h
    split at h
    · rename_i hc
      cases h
      obtain ⟨hr, hrw⟩ := List.getElem?_eq_some_iff.mp hbr
      by_cases h1 : r' = r
      · subst h1
        by_cases h2 : c' = c
        · subst h2
          simp [readCell, List.getElem?_set, hr, hc]
        · simp [readCell, List.getElem?_set, hr, h2, hbr, Ne.symm h2]
      · simp [readCell, List.getElem?_set, h1, Ne.symm h1]
    · cases h

theorem board_ext {b b' : Board} {R C : Nat} (h : isRect b R C) (h' : isRect b' R C)
    (he : ∀ r c, r < R → c < C → readCell b r c = readCell b' r c) : b = b' := by
  obtain ⟨hl, hrow⟩ := h
  obtain ⟨hl', hrow'⟩ := h'
  apply List.ext_getElem (by omega)
  intro r hr hr'
  have h1 : (b[r]).length = C := hrow _ (List.getElem_mem _)
  have h2 : (b'[r]).length = C := hrow' _ (List.getElem_mem _)
  apply List.ext_getElem (by omega)
  intro c hc hc'
  have := he r c (by omega) (by omega)
  simpa [readCell, List.getElem?_eq_getElem hr, List.getElem?_eq_getElem hr',
    List.getElem?_eq_getElem hc, List.getElem?_eq_getElem hc'] using this

/-! ## Loops -/

theorem forLoop_some {σ : Type} (body : Nat → σ → Option σ) (P : Nat → σ → Prop) :
    ∀ (n lo : Nat) (s : σ), P lo s →
      (∀ i t, lo ≤ i → i < lo + n → P i t → ∃ t', body i t = some t' ∧ P (i + 1) t') →
      ∃ t, forLoop body lo n s = some t ∧ P (lo + n) t := by
  intro n
  induction n with
  | zero => intro lo s h0 _; exact ⟨s, rfl, by simpa using h0⟩
  | succ n ih =>
    intro lo s h0 hstep
    obtain ⟨t', ht', hP⟩ := hstep lo s (le_refl _) (by omega) h0
    obtain ⟨t, ht, hQ⟩ := ih (lo + 1) t' hP
      (fun i u hi hlt hu => hstep i u (by omega) (by omega) hu)
    refine ⟨t, ?_, ?_⟩
    · simp [forLoop, ht', ht]
    · have : lo + (n + 1) = lo + 1 + n := by omega
      rw [this]; exact hQ

theorem forLoop_inv {σ : Type} (body : Nat → σ → Option σ) (P : Nat → σ → Prop) :
    ∀ (n lo : Nat) (s t : σ), P lo s →
      (∀ i u u', lo ≤ i → i < lo + n → P i u → body i u = some u' → P (i + 1) u') →
      forLoop body lo n s = some t → P (lo + n) t := by
  intro n
  induction n with
  | zero =>
    intro lo s t h0 _ h
    simp only [forLoop, Option.some.injEq] at h
    subst h; simpa using h0
  | succ n ih =>
    intro lo s t h0 hstep h
    simp only [forLoop] at h
    cases hb : body lo s with
    | none => simp [hb] at h
    | some u =>
      simp only [hb] at h
      have hP := hstep lo s u (le_refl _) (by omega) h0 hb
      have := ih (lo + 1) u t hP (fun i v v' hi hlt hv => hstep i v v' (by omega) (by omega) hv) h
      have e : lo + (n + 1) = lo + 1 + n := by omega
      rw [e]; exact this

/-- Two nested loops with an invariant `Q row col` that holds before the cell `(row, col)`
is processed: every body run succeeds and the invariant reaches the end. -/
theorem forLoop2_some {σ : Type} (body : Nat → Nat → σ → Option σ)
    (Q : Nat → Nat → σ → Prop) (r0 rn c0 cn : Nat) (s : σ) (h0 : Q r0 c0 s)
    (hstep : ∀ row col t, r0 ≤ row → row < r0 + rn → c0 ≤ col → col < c0 + cn →
      Q row col t → ∃ t', body row col t = some t' ∧ Q row (col + 1) t')
    (hnext : ∀ row t, r0 ≤ row → row < r0 + rn → Q row (c0 + cn) t → Q (row + 1) c0 t) :
    ∃ t, forLoop (fun row => forLoop (body row) c0 cn) r0 rn s = some t ∧
      Q (r0 + rn) c0 t := by
  apply forLoop_some (fun row => forLoop (body row) c0 cn) (fun row t => Q row c0 t) rn r0 s h0
  intro row t hr hr' hQ
  obtain ⟨t', ht', hQ'⟩ := forLoop_some (body row) (fun col u => Q row col u) cn c0 t hQ
    (fun col u hc hc' hu => hstep row col u hr hr' hc hc' hu)
  exact ⟨t', ht', hnext row t' hr hr' hQ'⟩

/-- Two nested loops preserve an invariant `Q row col` whenever they return. -/
theorem forLoop2_inv {σ : Type} (body : Nat → Nat → σ → Option σ)
    (Q : Nat → Nat → σ → Prop) (r0 rn c0 cn : Nat) (s t : σ) (h0 : Q r0 c0 s)
    (hstep : ∀ row col u u', r0 ≤ row → row < r0 + rn → c0 ≤ col → col < c0 + cn →
      Q row col u → body row col u = some u' → Q row (col + 1) u')
    (hnext : ∀ row u, r0 ≤ row → row < r0 + rn → Q row (c0 + cn) u → Q (row + 1) c0 u)
    (h : forLoop (fun row => forLoop (body row) c0 cn) r0 rn s = some t) :
    Q (r0 + rn) c0 t := by
  apply forLoop_inv (fun row => forLoop (body row) c0 cn) (fun row t => Q row c0 t) rn r0 s t h0
    ?_ h
  intro row u u' hr hr' hQ hu
  have := forLoop_inv (body row) (fun col v => Q row col v) cn c0 u u' hQ
    (fun col v v' hc hc' hv hb => hstep row col v v' hr hr' hc hc' hv hb) hu
  exact hnext row u' hr hr' this

/-- The cells of the rectangle `[r0, r0+rn) × [c0, c0+cn)` that a row-major scan has
passed at the end of row `row` are those it has passed at the start of row `row + 1`. -/
theorem scanned_next {r0 c0 cn row r c : Nat} :
    (r0 ≤ r ∧ c0 ≤ c ∧ c < c0 + cn ∧ (r < row ∨ (r = row ∧ c < c0 + cn))) ↔
    (r0 ≤ r ∧ c0 ≤ c ∧ c < c0 + cn ∧ (r < row + 1 ∨ (r = row + 1 ∧ c < c0))) := by
  omega

/-- A nested loop whose body assigns `val row col` to the cell `(row, col)` of the grid
`tgt` of the state and keeps `Inv`: it returns, and the grid holds `val` on the whole
rectangle and its old contents elsewhere. -/
theorem forLoop2_fill {σ : Type} (body : Nat → Nat → σ → Option σ) (tgt : σ → Board)
    (Inv : σ → Prop) (val : Nat → Nat → Option Char) (r0 rn c0 cn : Nat) (s : σ)
    (h0 : Inv s)
    (hbody : ∀ row col t, r0 ≤ row → row < r0 + rn → c0 ≤ col → col < c0 + cn → Inv t →
      readCell (tgt t) row col = readCell (tgt s) row col →
      ∃ t', body row col t = some t' ∧ Inv t' ∧
        ∀ r c, readCell (tgt t') r c =
          if r = row ∧ c = col then val row col else readCell (tgt t) r c) :
    ∃ t, forLoop (fun row => forLoop (body row) c0 cn) r0 rn s = some t ∧ Inv t ∧
      ∀ r c, readCell (tgt t) r c =
        if r0 ≤ r ∧ r < r0 + rn ∧ c0 ≤ c ∧ c < c0 + cn then val r c
        else readCell (tgt s) r c := by
  obtain ⟨t, ht, hI, hc⟩ := forLoop2_some body
    (fun row col t => Inv t ∧ ∀ r c, readCell (tgt t) r c =
      if r0 ≤ r ∧ c0 ≤ c ∧ c < c0 + cn ∧ (r < row ∨ (r = row ∧ c < col)) then val r c
      else readCell (tgt s) r c) r0 rn c0 cn s
    ⟨h0, fun r c => by
      have : ¬ (r0 ≤ r ∧ c0 ≤ c ∧ c < c0 + cn ∧ (r < r0 ∨ (r = r0 ∧ c < c0))) := by omega
      simp [this]⟩
    (by
      rintro row col t hr hr' hc hc' ⟨hI, hcells⟩
      have hcur : readCell (tgt t) row col = readCell (tgt s) row col := by
        rw [hcells]
        have : ¬ (r0 ≤ row ∧ c0 ≤ col ∧ col < c0 + cn ∧
          (row < row ∨ (row = row ∧ col < col))) := by omega
        simp [this]
      obtain ⟨t', ht', hI', hw⟩ := hbody row col t hr hr' hc hc' hI hcur
      refine ⟨t', ht', hI', fun r c => ?_⟩
      rw [hw]
      by_cases h : r = row ∧ c = col
      · obtain ⟨rfl, rfl⟩ := h
        have : r0 ≤ r ∧ c0 ≤ c ∧ c < c0 + cn ∧ (r < r ∨ (r = r ∧ c < c + 1)) := by omega
        simp [this]
      · rw [if_neg h, hcells]
        have : (r0 ≤ r ∧ c0 ≤ c ∧ c < c0 + cn ∧ (r < row ∨ (r = row ∧ c < col))) ↔
            (r0 ≤ r ∧ c0 ≤ c ∧ c < c0 + cn ∧ (r < row ∨ (r = row ∧ c < col + 1))) := by
          omega
        simp only [this])
    (by
      rintro row t hr hr' ⟨hI, hcells⟩
      refine ⟨hI, fun r c => ?_⟩
      rw [hcells]
      simp only [scanned_next])
  refine ⟨t, ht, hI, fun r c => ?_⟩
  rw [hc]
  have : (r0 ≤ r ∧ c0 ≤ c ∧ c < c0 + cn ∧ (r < r0 + rn ∨ (r = r0 + rn ∧ c < c0))) ↔
      (r0 ≤ r ∧ r < r0 + rn ∧ c0 ≤ c ∧ c < c0 + cn) := by omega
  simp only [this]

/-! ## The generation step -/

theorem countLiving_eq {b : Board} {r c : Nat} {v : Char} (h : readCell b r c = some v)
    (n : Nat) :
    countLiving b r c n = some (n + if readCell b r c = some 'O' then 1 else 0) := by
  unfold countLiving
  rw [h]
  by_cases hv : v = 'O' <;> simp [hv]

/-- On an interior cell of an `N×N` grid the eight tests of `tick` all read inside the
grid, and their count is the number of Moore neighbours holding `'O'`. -/
theorem livingNeighbors_eq {L : Board} {N r c : Nat} (hL : isRect L N N)
    (hi : interior N r c) : livingNeighbors L r c = some (aliveNeighbours L r c) := by
  obtain ⟨h1, h2, h3, h4⟩ := hi
  obtain ⟨v1, e1⟩ := readCell_isSome (r := r - 1) (c := c - 1) hL (by omega) (by omega)
  obtain ⟨v2, e2⟩ := readCell_isSome (r := r) (c := c - 1) hL (by omega) (by omega)
  obtain ⟨v3, e3⟩ := readCell_isSome (r := r + 1) (c := c - 1) hL (by omega) (by omega)
  obtain ⟨v4, e4⟩ := readCell_isSome (r := r + 1) (c := c) hL (by omega) (by omega)
  obtain ⟨v5, e5⟩ := readCell_isSome (r := r + 1) (c := c + 1) hL (by omega) (by omega)
  obtain ⟨v6, e6⟩ := readCell_isSome (r := r) (c := c + 1) hL (by omega) (by omega)
  obtain ⟨v7, e7⟩ := readCell_isSome (r := r - 1) (c := c + 1) hL (by omega) (by omega)
  obtain ⟨v8, e8⟩ := readCell_isSome (r := r - 1) (c := c) hL (by omega) (by omega)
  simp only [livingNeighbors, bind, Option.bind, countLiving_eq e1, countLiving_eq e2,
    countLiving_eq e3, countLiving_eq e4, countLiving_eq e5, countLiving_eq e6,
    countLiving_eq e7, countLiving_eq e8, aliveNeighbours, mooreNeighbours,
    List.countP_cons, List.countP_nil, decide_eq_true_eq, Option.some.injEq]
  omega

theorem writeSnapshot_eq {L S S' : Board} {r c : Nat} {v : Char}
    (h : writeCell S r c v = some S') :
    writeSnapshot ⟨L, S⟩ r c v = some ⟨L, S'⟩ := by
  simp [writeSnapshot, h]

theorem writeLive_eq {L L' S : Board} {r c : Nat} {v : Char}
    (h : writeCell L r c v = some L') :
    writeLive ⟨L, S⟩ r c v = some ⟨L', S⟩ := by
  simp [writeLive, h]

theorem cellAt_eq {b : Board} {r c : Nat} {v : Char} (h : readCell b r c = some v) :
    cellAt b r c = v := by
  simp [cellAt, h]

/-- The body of `tick` on an interior cell of `N×N` grids: it returns, `liveBoard` is
kept, and `snapshotBoard` changes at `(r, c)` only, where it holds `tickValue`. -/
theorem tickCell_spec {L S : Board} {N r c : Nat} (hL : isRect L N N) (hS : isRect S N N)
    (hi : interior N r c) :
    ∃ S', tickCell r c ⟨L, S⟩ = some ⟨L, S'⟩ ∧ isRect S' N N ∧
      ∀ r' c', readCell S' r' c' =
        if r' = r ∧ c' = c then
          some (tickValue (cellAt L r c) (aliveNeighbours L r c) (cellAt S r c))
        else readCell S r' c' := by
  have hn := livingNeighbors_eq hL hi
  obtain ⟨h1, h2, h3, h4⟩ := hi
  obtain ⟨v, hv⟩ := readCell_isSome (r := r) (c := c) hL (by omega) (by omega)
  obtain ⟨o, ho⟩ := readCell_isSome (r := r) (c := c) hS (by omega) (by omega)
  obtain ⟨D, hD⟩ := writeCell_isSome (r := r) (c := c) '.' hS (by omega) (by omega)
  obtain ⟨A, hA⟩ := writeCell_isSome (r := r) (c := c) 'O' hS (by omega) (by omega)
  rw [cellAt_eq hv, cellAt_eq ho]
  generalize aliveNeighbours L r c = n at hn ⊢
  by_cases hvO : v = 'O'
  · subst hvO
    by_cases hn23 : n = 2 ∨ n = 3
    · refine ⟨A, ?_, writeCell_rect hA hS, fun r' c' => ?_⟩
      · have h2' : ¬ n < 2 := by omega
        have h3' : ¬ n > 3 := by omega
        simp [tickCell, hv, hn, hn23, h2', h3', writeSnapshot_eq hA]
      · rw [readCell_writeCell hA]; simp [tickValue, hn23]
    · refine ⟨D, ?_, writeCell_rect hD hS, fun r' c' => ?_⟩
      · by_cases h2' : n < 2
        · have h3' : ¬ n > 3 := by omega
          simp [tickCell, hv, hn, hn23, h2', h3', writeSnapshot_eq hD]
        · have h3' : n > 3 := by omega
          simp [tickCell, hv, hn, hn23, h2', h3', writeSnapshot_eq hD]
      · rw [readCell_writeCell hD]; simp [tickValue, hn23]
  · by_cases hvD : v = '.' ∧ n = 3
    · obtain ⟨rfl, rfl⟩ := hvD
      refine ⟨A, ?_, writeCell_rect hA hS, fun r' c' => ?_⟩
      · simp [tickCell, hv, hn, writeSnapshot_eq hA]
      · rw [readCell_writeCell hA]; simp [tickValue]
    · refine ⟨S, ?_, hS, fun r' c' => ?_⟩
      · by_cases hd : v = '.'
        · have : ¬ n = 3 := fun h => hvD ⟨hd, h⟩
          simp [tickCell, hv, hn, hvO, hd, this]
        · simp [tickCell, hv, hvO, hd]
      · by_cases hrc : r' = r ∧ c' = c
        · obtain ⟨rfl, rfl⟩ := hrc
          simp [tickValue, hvO, hvD, ho]
        · simp [hrc]

/-- The function `tick` on `N×N` grids: it returns, keeps `liveBoard`, and leaves in
`snapshotBoard` the value `tickValue` at every interior cell, computed from the
unchanged `liveBoard`, and the old value everywhere else. -/
theorem tick_spec {L S : Board} {N : Nat} (hL : isRect L N N) (hS : isRect S N N) :
    ∃ S', tick ⟨L, S⟩ N = some ⟨L, S'⟩ ∧ isRect S' N N ∧
      ∀ r c, readCell S' r c =
        if interior N r c then
          some (tickValue (cellAt L r c) (aliveNeighbours L r c) (cellAt S r c))
        else readCell S r c := by
  obtain ⟨t, ht, ⟨hI1, hI2⟩, hc⟩ := forLoop2_fill tickCell (fun s => s.snapshotBoard)
    (fun s => s.liveBoard = L ∧ isRect s.snapshotBoard N N)
    (fun r c => some (tickValue (cellAt L r c) (aliveNeighbours L r c) (cellAt S r c)))
    1 (N - 1 - 1) 1 (N - 1 - 1) ⟨L, S⟩ ⟨rfl, hS⟩
    (by
      rintro row col ⟨L', T⟩ hr hr' hc hc' ⟨hL', hT⟩ hcur
      simp only at hL' hT hcur
      subst hL'
      have hi : interior N row col := ⟨hr, by omega, hc, by omega⟩
      obtain ⟨T', e, hT', hw⟩ := tickCell_spec hL hT hi
      refine ⟨⟨_, T'⟩, e, ⟨rfl, hT'⟩, fun r c => ?_⟩
      simp only [hw, cellAt, hcur])
  obtain ⟨L', S'⟩ := t
  simp only at hI1 hI2 hc
  subst hI1
  refine ⟨S', ht, hI2, fun r c => ?_⟩
  rw [hc]
  have : (1 ≤ r ∧ r < 1 + (N - 1 - 1) ∧ 1 ≤ c ∧ c < 1 + (N - 1 - 1)) ↔ interior N r c := by
    unfold interior; omega
  simp only [this]

/-- On `N×N` grids `copySnapshotBoard` returns and makes `liveBoard` the snapshot. -/
theorem copySnapshotBoard_spec {L S : Board} {N : Nat} (hL : isRect L N N)
    (hS : isRect S N N) : copySnapshotBoard ⟨L, S⟩ N = some ⟨S, S⟩ := by
  obtain ⟨t, ht, ⟨hI1, hI2⟩, hc⟩ := forLoop2_fill
    (fun row col s =>
      match readCell s.snapshotBoard row col with
      | none => none
      | some v => writeLive s row col v)
    (fun s => s.liveBoard)
    (fun s => s.snapshotBoard = S ∧ isRect s.liveBoard N N)
    (fun r c => readCell S r c) 0 N 0 N ⟨L, S⟩ ⟨rfl, hL⟩
    (by
      rintro row col ⟨T, S'⟩ hr hr' hc hc' ⟨hS', hT⟩ -
      simp only at hS' hT
      subst hS'
      obtain ⟨v, hv⟩ := readCell_isSome (r := row) (c := col) hS (by omega) (by omega)
      obtain ⟨T', hT'⟩ := writeCell_isSome (r := row) (c := col) v hT (by omega) (by omega)
      refine ⟨⟨T', _⟩, ?_, ⟨rfl, writeCell_rect hT' hT⟩, fun r c => ?_⟩
      · simp only [hv, writeLive_eq hT']
      · simp only [readCell_writeCell hT', hv])
  obtain ⟨L', S'⟩ := t
  simp only at hI1 hI2 hc
  subst hI1
  have : L' = S' := board_ext hI2 hS (fun r c hr hc' => by
    rw [hc]; simp [hr, hc'])
  subst this
  exact ht

/-- On `N×N` grids `copyLiveBoard` returns and makes `snapshotBoard` the live grid. -/
theorem copyLiveBoard_spec {L S : Board} {N : Nat} (hL : isRect L N N)
    (hS : isRect S N N) : copyLiveBoard ⟨L, S⟩ N = some ⟨L, L⟩ := by
  obtain ⟨t, ht, ⟨hI1, hI2⟩, hc⟩ := forLoop2_fill
    (fun row col s =>
      match readCell s.liveBoard row col with
      | none => none
      | some v => writeSnapshot s row col v)
    (fun s => s.snapshotBoard)
    (fun s => s.liveBoard = L ∧ isRect s.snapshotBoard N N)
    (fun r c => readCell L r c) 0 N 0 N ⟨L, S⟩ ⟨rfl, hS⟩
    (by
      rintro row col ⟨L', T⟩ hr hr' hc hc' ⟨hL', hT⟩ -
      simp only at hL' hT
      subst hL'
      obtain ⟨v, hv⟩ := readCell_isSome (r := row) (c := col) hL (by omega) (by omega)
      obtain ⟨T', hT'⟩ := writeCell_isSome (r := row) (c := col) v hT (by omega) (by omega)
      refine ⟨⟨_, T'⟩, ?_, ⟨rfl, writeCell_rect hT' hT⟩, fun r c => ?_⟩
      · simp only [hv, writeSnapshot_eq hT']
      · simp only [readCell_writeCell hT', hv])
  obtain ⟨L', S'⟩ := t
  simp only at hI1 hI2 hc
  subst hI1
  have : S' = L' := board_ext hI2 hL (fun r c hr hc' => by
    rw [hc]; simp [hr, hc'])
  subst this
  exact ht

/-- One generation step from `snapshotBoard = liveBoard` on an `N×N` grid: both grids
become the grid that holds `tickValue` on the interior and the old border. -/
theorem generation_spec {L : Board} {N : Nat} (hL : isRect L N N) :
    ∃ L', generation ⟨L, L⟩ N = some ⟨L', L'⟩ ∧ isRect L' N N ∧
      ∀ r c, readCell L' r c =
        if interior N r c then
          some (tickValue (cellAt L r c) (aliveNeighbours L r c) (cellAt L r c))
        else readCell L r c := by
  obtain ⟨L', ht, hL', hc⟩ := tick_spec hL hL
  exact ⟨L', by simp only [generation, ht, copySnapshotBoard_spec hL hL'], hL', hc⟩

/-- A conditional assignment to `snapshotBoard[r][c]` keeps `liveBoard` and every other
cell of `snapshotBoard`. -/
theorem writeSnapshot_frame {s s' : Boards} {r c : Nat} {v : Char} (p : Prop) [Decidable p]
    (h : (if p then writeSnapshot s r c v else some s) = some s') :
    s'.liveBoard = s.liveBoard ∧
      ∀ r' c', ¬ (r' = r ∧ c' = c) →
        readCell s'.snapshotBoard r' c' = readCell s.snapshotBoard r' c' := by
  split at h
  · unfold writeSnapshot at h
    cases hw : writeCell s.snapshotBoard r c v with
    | none => simp [hw] at h
    | some b =>
      simp only [hw, Option.some.injEq] at h
      subst h
      exact ⟨rfl, fun r' c' hne => by simp [readCell_writeCell hw, hne]⟩
  · cases h
    exact ⟨rfl, fun _ _ _ => rfl⟩

/-- The three consecutive tests of the `'O'` branch of `tick` amount to one assignment:
`'O'` for two or three living neighbours, `'.'` otherwise. -/
theorem tickCell_eq (r c : Nat) (s : Boards) :
    tickCell r c s =
      match readCell s.liveBoard r c with
      | none => none
      | some v =>
        if v = 'O' then
          match livingNeighbors s.liveBoard r c with
          | none => none
          | some n => writeSnapshot s r c (if n = 2 ∨ n = 3 then 'O' else '.')
        else if v = '.' then
          match livingNeighbors s.liveBoard r c with
          | none => none
          | some n => if n = 3 then writeSnapshot s r c 'O' else some s
        else some s := by
  unfold tickCell
  cases hv : readCell s.liveBoard r c with
  | none => rfl
  | some v =>
    simp only [bind, Option.bind]
    by_cases hO : v = 'O'
    · simp only [hO, if_true]
      cases hn : livingNeighbors s.liveBoard r c with
      | none => rfl
      | some n =>
        simp only
        by_cases h2 : n < 2
        · have h23 : ¬ (n = 2 ∨ n = 3) := by omega
          have h3 : ¬ n > 3 := by omega
          simp only [h2, h23, h3, if_true, if_false]
          cases writeSnapshot s r c '.' <;> rfl
        · by_cases h23 : n = 2 ∨ n = 3
          · have h3 : ¬ n > 3 := by omega
            simp only [h2, h23, h3, if_true, if_false]
            cases writeSnapshot s r c 'O' <;> rfl
          · have h3 : n > 3 := by omega
            simp only [h2, h23, h3, if_true, if_false]
    · simp only [hO, if_false]
      by_cases hD : v = '.'
      · simp only [hD, if_true]
        cases hn : livingNeighbors s.liveBoard r c <;> rfl
      · simp only [hD, if_false]

/-- Whenever the body of `tick` returns, it has kept `liveBoard` and every cell of
`snapshotBoard` other than `(r, c)`. -/
theorem tickCell_frame {s s' : Boards} {r c : Nat} (h : tickCell r c s = some s') :
    s'.liveBoard = s.liveBoard ∧
      ∀ r' c', ¬ (r' = r ∧ c' = c) →
        readCell s'.snapshotBoard r' c' = readCell s.snapshotBoard r' c' := by
  rw [tickCell_eq] at h
  cases hv : readCell s.liveBoard r c with
  | none => simp [hv] at h
  | some v =>
    simp only [hv] at h
    split at h
    · cases hn : livingNeighbors s.liveBoard r c with
      | none => simp [hn] at h
      | some n =>
        simp only [hn] at h
        exact writeSnapshot_frame True (by simpa using h)
    · split at h
      · cases hn : livingNeighbors s.liveBoard r c with
        | none => simp [hn] at h
        | some n =>
          simp only [hn] at h
          exact writeSnapshot_frame _ h
      · cases h
        exact ⟨rfl, fun _ _ _ => rfl⟩

/-- Whenever `tick` returns, on any grids, it has kept `liveBoard` and every cell of
`snapshotBoard` outside the interior. -/
theorem tick_frame {s s' : Boards} {N : Nat} (h : tick s N = some s') :
    s'.liveBoard = s.liveBoard ∧
      ∀ r c, ¬ interior N r c →
        readCell s'.snapshotBoard r c = readCell s.snapshotBoard r c := by
  refine forLoop2_inv tickCell
    (fun _ _ t => t.liveBoard = s.liveBoard ∧
      ∀ r c, ¬ interior N r c → readCell t.snapshotBoard r c = readCell s.snapshotBoard r c)
    1 (N - 1 - 1) 1 (N - 1 - 1) s s' ⟨rfl, fun _ _ _ => rfl⟩ ?_ (fun _ _ _ _ hu => hu) h
  rintro row col u u' hr hr' hc hc' ⟨hu1, hu2⟩ hb
  obtain ⟨a, b⟩ := tickCell_frame hb
  refine ⟨by rw [a, hu1], fun r c hne => ?_⟩
  have : ¬ (r = row ∧ c = col) := by
    rintro ⟨rfl, rfl⟩
    exact hne ⟨hr, by omega, hc, by omega⟩
  rw [b r c this, hu2 r c hne]

/-! ## Board creation -/

/-- A loop assigning `v` to the cells `(fr i, fc i)` for `i < n`, all inside an `R×C`
grid: it returns an `R×C` grid holding `v` at these cells and the old symbols elsewhere. -/
theorem forLoop_write (fr fc : Nat → Nat) (v : Char) {R C : Nat} (n : Nat) {b : Board}
    (hb : isRect b R C) (hin : ∀ i, i < n → fr i < R ∧ fc i < C) :
    ∃ b', forLoop (fun i b => writeCell b (fr i) (fc i) v) 0 n b = some b' ∧ isRect b' R C ∧
      ∀ r c, readCell b' r c =
        if ∃ i, i < n ∧ fr i = r ∧ fc i = c then some v else readCell b r c := by
  obtain ⟨b', hb', hR, hc⟩ := forLoop_some (fun i b => writeCell b (fr i) (fc i) v)
    (fun k t => isRect t R C ∧ ∀ r c, readCell t r c =
      if ∃ i, i < k ∧ fr i = r ∧ fc i = c then some v else readCell b r c) n 0 b
    ⟨hb, fun r c => by simp⟩
    (by
      rintro i t - hi ⟨ht, hcells⟩
      obtain ⟨hr, hc⟩ := hin i (by omega)
      obtain ⟨t', ht'⟩ := writeCell_isSome v ht hr hc
      refine ⟨t', ht', writeCell_rect ht' ht, fun r c => ?_⟩
      rw [readCell_writeCell ht', hcells]
      by_cases h : r = fr i ∧ c = fc i
      · obtain ⟨rfl, rfl⟩ := h
        have : ∃ j, j < i + 1 ∧ fr j = fr i ∧ fc j = fc i := ⟨i, by omega, rfl, rfl⟩
        simp [this]
      · have : (∃ j, j < i + 1 ∧ fr j = r ∧ fc j = c) ↔ (∃ j, j < i ∧ fr j = r ∧ fc j = c) := by
          constructor
          · rintro ⟨j, hj, h1, h2⟩
            have : j ≠ i := by
              rintro rfl
              exact h ⟨h1.symm, h2.symm⟩
            exact ⟨j, by omega, h1, h2⟩
          · rintro ⟨j, hj, h1, h2⟩
            exact ⟨j, by omega, h1, h2⟩
        simp only [h, if_false, this])
  refine ⟨b', hb', hR, fun r c => ?_⟩
  rw [hc]
  simp only [Nat.zero_add]

/-- On an `N×N` grid `createLiveBoard` returns an `N×N` grid with `'l'` on the whole
border and the old symbols everywhere else. -/
theorem createLiveBoard_spec {b : Board} {N : Nat} (hb : isRect b N N) :
    ∃ b', createLiveBoard b N = some b' ∧ isRect b' N N ∧
      ∀ r c, readCell b' r c = if border N r c then some 'l' else readCell b r c := by
  obtain ⟨b1, e1, h1, c1⟩ := forLoop_write (fun _ => 0) (fun col => col) 'l' N hb
    (fun i hi => ⟨by show 0 < N; omega, hi⟩)
  obtain ⟨b2, e2, h2, c2⟩ := forLoop_write (fun row => row) (fun _ => 0) 'l' N h1
    (fun i hi => ⟨hi, by show 0 < N; omega⟩)
  obtain ⟨b3, e3, h3, c3⟩ := forLoop_write (fun _ => N - 1) (fun col => col) 'l' N h2
    (fun i hi => ⟨by show N - 1 < N; omega, hi⟩)
  obtain ⟨b4, e4, h4, c4⟩ := forLoop_write (fun row => row) (fun _ => N - 1) 'l' N h3
    (fun i hi => ⟨hi, by show N - 1 < N; omega⟩)
  have e1' : forLoop (fun col b => writeCell b 0 col 'l') 0 N b = some b1 := e1
  have e2' : forLoop (fun row b => writeCell b row 0 'l') 0 N b1 = some b2 := e2
  have e3' : forLoop (fun col b => writeCell b (N - 1) col 'l') 0 N b2 = some b3 := e3
  have e4' : forLoop (fun row b => writeCell b row (N - 1) 'l') 0 N b3 = some b4 := e4
  refine ⟨b4, ?_, h4, fun r c => ?_⟩
  · simp only [createLiveBoard, bind, Option.bind, e1', e2', e3', e4']
  · rw [c4, c3, c2, c1]
    have k1 : (∃ i, i < N ∧ 0 = r ∧ i = c) ↔ (r = 0 ∧ c < N) :=
      ⟨fun ⟨i, hi, h, h'⟩ => ⟨h.symm, h' ▸ hi⟩, fun ⟨h, h'⟩ => ⟨c, h', h.symm, rfl⟩⟩
    have k2 : (∃ i, i < N ∧ i = r ∧ 0 = c) ↔ (c = 0 ∧ r < N) :=
      ⟨fun ⟨i, hi, h, h'⟩ => ⟨h'.symm, h ▸ hi⟩, fun ⟨h, h'⟩ => ⟨r, h', rfl, h.symm⟩⟩
    have k3 : (∃ i, i < N ∧ N - 1 = r ∧ i = c) ↔ (r = N - 1 ∧ c < N) :=
      ⟨fun ⟨i, hi, h, h'⟩ => ⟨h.symm, h' ▸ hi⟩, fun ⟨h, h'⟩ => ⟨c, h', h.symm, rfl⟩⟩
    have k4 : (∃ i, i < N ∧ i = r ∧ N - 1 = c) ↔ (c = N - 1 ∧ r < N) :=
      ⟨fun ⟨i, hi, h, h'⟩ => ⟨h'.symm, h ▸ hi⟩, fun ⟨h, h'⟩ => ⟨r, h', rfl, h.symm⟩⟩
    simp only [k1, k2, k3, k4]
    unfold border
    by_cases hB : r < N ∧ c < N ∧ (r = 0 ∨ r + 1 = N ∨ c = 0 ∨ c + 1 = N)
    · rw [if_pos hB]
      split_ifs <;> first | rfl | (exfalso; omega)
    · rw [if_neg hB]
      split_ifs <;> first | rfl | (exfalso; omega)

/-- The grid stays well shaped and the border stays `'l'` through any number of
generation steps started from `snapshotBoard = liveBoard`. -/
theorem generations_border {N : Nat} (k : Nat) :
    ∀ {L : Board}, isRect L N N → (∀ r c, border N r c → readCell L r c = some 'l') →
      ∃ L', generations N k ⟨L, L⟩ = some ⟨L', L'⟩ ∧ isRect L' N N ∧
        ∀ r c, border N r c → readCell L' r c = some 'l' := by
  induction k with
  | zero => intro L hL hB; exact ⟨L, rfl, hL, hB⟩
  | succ k ih =>
    intro L hL hB
    obtain ⟨L1, hg, hL1, hc⟩ := generation_spec hL
    obtain ⟨L', hk, hL', hB'⟩ := ih hL1 (fun r c hb => by
      rw [hc, if_neg (by unfold interior; unfold border at hb; omega)]
      exact hB r c hb)
    exact ⟨L', by simp only [generations, hg, hk], hL', hB'⟩


/-! ## Patterns -/

/-- A position inside an `N×N` grid is on the border or in the interior. -/
theorem border_or_interior {N r c : Nat} (hr : r < N) (hc : c < N) :
    border N r c ∨ interior N r c := by
  unfold border interior; omega

/-- The pattern description determines the grid. -/
theorem hasPattern_unique {b b' : Board} {N : Nat} {A : List (Nat × Nat)}
    (h : hasPattern b N A) (h' : hasPattern b' N A) : b = b' := by
  obtain ⟨hR, hB, hI⟩ := h
  obtain ⟨hR', hB', hI'⟩ := h'
  refine board_ext hR hR' (fun r c hr hc => ?_)
  rcases border_or_interior hr hc with hb | hi
  · rw [hB r hr c hc hb, hB' r hr c hc hb]
  · rw [hI r hr c hc hi, hI' r hr c hc hi]

/-! ## Allocation -/

/-- A loop returns `none` when its body does at some index and an invariant holds up to
there. -/
theorem forLoop_none {σ : Type} (body : Nat → σ → Option σ) (P : Nat → σ → Prop) :
    ∀ (n lo : Nat) (s : σ) (k : Nat), lo ≤ k → k < lo + n → P lo s →
      (∀ i t t', lo ≤ i → i < k → P i t → body i t = some t' → P (i + 1) t') →
      (∀ t, P k t → body k t = none) →
      forLoop body lo n s = none := by
  intro n
  induction n with
  | zero => intro lo s k h1 h2; omega
  | succ n ih =>
    intro lo s k h1 h2 h0 hstep hk
    simp only [forLoop]
    cases hb : body lo s with
    | none => rfl
    | some t =>
      simp only
      have hne : lo ≠ k := by
        rintro rfl
        rw [hk s h0] at hb
        cases hb
      exact ih (lo + 1) t k (by omega) (by omega) (hstep lo s t (le_refl _) (by omega) h0 hb)
        (fun i u u' hi hi' hu he => hstep i u u' (by omega) hi' hu he) hk

theorem allocBoard_rect (N : Nat) : isRect (allocBoard N) N (N - 1) := by
  refine ⟨by simp [allocBoard], fun r hr => ?_⟩
  rw [allocBoard, List.mem_replicate] at hr
  rw [hr.2]; simp

theorem writeCell_none_of_col {b : Board} {R C r c : Nat} (v : Char) (hb : isRect b R C)
    (hc : C ≤ c) : writeCell b r c v = none := by
  unfold writeCell
  cases hbr : b[r]? with
  | none => rfl
  | some row =>
    obtain ⟨hr, hrw⟩ := List.getElem?_eq_some_iff.mp hbr
    have : row.length = C := hb.2 row (hrw ▸ List.getElem_mem _)
    simp only
    rw [if_neg (by omega)]

/-- On a grid as `main` allocates it, `boardSize ≥ 1` rows of `boardSize-1` cells, the
first pass of `createLiveBoard` leaves the first row at column `boardSize-1`. -/
theorem createLiveBoard_allocBoard (N : Nat) (hN : 1 ≤ N) :
    createLiveBoard (allocBoard N) N = none := by
  have h : forLoop (fun col b => writeCell b 0 col 'l') 0 N (allocBoard N) = none :=
    forLoop_none (fun col b => writeCell b 0 col 'l') (fun _ t => isRect t N (N - 1))
      N 0 (allocBoard N) (N - 1) (by omega) (by omega) (allocBoard_rect N)
      (fun i t t' _ _ ht he => writeCell_rect he ht)
      (fun t ht => writeCell_none_of_col 'l' ht (le_refl _))
  simp only [createLiveBoard, bind, Option.bind, h]

/-! ## Rendering -/

theorem textLines_append (l : List Char) (hl : '\n' ∉ l) (rest : List Char) :
    textLines (l ++ '\n' :: rest) = l :: textLines rest := by
  induction l with
  | nil => simp [textLines]
  | cons c cs ih =>
    have hc : c ≠ '\n' := fun h => hl (by simp [h])
    have hcs : '\n' ∉ cs := fun h => hl (by simp [h])
    rw [List.cons_append, textLines, if_neg hc, ih hcs]

theorem textLines_flatMap (b : Board) (f : List Char → List Char)
    (hf : ∀ row ∈ b, '\n' ∉ f row) :
    textLines (b.flatMap (fun row => f row ++ ['\n'])) = b.map f := by
  induction b with
  | nil => rfl
  | cons row rows ih =>
    simp only [List.flatMap_cons, List.append_assoc, List.singleton_append, List.map_cons]
    rw [textLines_append _ (hf row (by simp)), ih (fun r hr => hf r (by simp [hr]))]

theorem printedLine_length (row : List Char) : (printedLine row).length = 2 * row.length := by
  induction row with
  | nil => rfl
  | cons v vs ih =>
    have : printedLine (v :: vs) = v :: ' ' :: printedLine vs := rfl
    rw [this, List.length_cons, List.length_cons, List.length_cons, ih]
    omega

theorem not_mem_printedLine {row : List Char} (h : '\n' ∉ row) : '\n' ∉ printedLine row := by
  unfold printedLine
  simp only [List.mem_flatMap, List.mem_cons, List.mem_singleton, List.not_mem_nil, or_false,
    not_exists, not_and]
  rintro v hv (h' | h')
  · exact h (h' ▸ hv)
  · exact absurd h' (by decide)

/-- The inner loop of `printLiveBoard` on a row of the grid: the first `n` symbols of the
row are written, each followed by a space, and the grid is kept. -/
theorem printRow_spec {b : Board} {row : Nat} {cells : List Char} (hrow : b[row]? = some cells)
    (n : Nat) (hn : n ≤ cells.length) (out : List Char) :
    forLoop (fun col (d : Display) =>
        match readCell d.liveBoard row col with
        | none => none
        | some v => some { d with cout := d.cout ++ [v, ' '] }) 0 n ⟨b, out⟩ =
      some ⟨b, out ++ printedLine (cells.take n)⟩ := by
  obtain ⟨t, ht, h1, h2⟩ := forLoop_some
    (fun col (d : Display) =>
        match readCell d.liveBoard row col with
        | none => none
        | some v => some { d with cout := d.cout ++ [v, ' '] })
    (fun k t => t.liveBoard = b ∧ t.cout = out ++ printedLine (cells.take k)) n 0 ⟨b, out⟩
    ⟨rfl, by simp [printedLine]⟩
    (by
      rintro i ⟨b', o⟩ - hi ⟨hb', ho⟩
      simp only at hb' ho
      subst hb'
      have hi' : i < cells.length := by omega
      have hr : readCell b' row i = some cells[i] := by
        simp [readCell, hrow, List.getElem?_eq_getElem hi']
      refine ⟨⟨b', o ++ [cells[i], ' ']⟩, by simp only [hr], rfl, ?_⟩
      simp only [ho, List.take_succ, List.getElem?_eq_getElem hi', Option.toList, printedLine,
        List.flatMap_append, List.flatMap_cons, List.flatMap_nil, List.append_nil,
        List.append_assoc])
  obtain ⟨b', o⟩ := t
  simp only [Nat.zero_add] at h1 h2
  rw [ht, h1, h2]

/-- On an `N×N` grid `printLiveBoard` returns, keeps the grid, and appends to `cout`, row
after row, every symbol of the row followed by a space and then a newline. -/
theorem printLiveBoard_spec {b : Board} {N : Nat} (hb : isRect b N N) (out : List Char) :
    printLiveBoard ⟨b, out⟩ N =
      some ⟨b, out ++ b.flatMap (fun row => printedLine row ++ ['\n'])⟩ := by
  obtain ⟨t, ht, h1, h2⟩ := forLoop_some
    (fun row (d : Display) =>
      match forLoop (fun col (d : Display) =>
          match readCell d.liveBoard row col with
          | none => none
          | some v => some { d with cout := d.cout ++ [v, ' '] }) 0 N d with
      | none => none
      | some d => some { d with cout := d.cout ++ ['\n'] })
    (fun k t => t.liveBoard = b ∧
      t.cout = out ++ (b.take k).flatMap (fun row => printedLine row ++ ['\n'])) N 0 ⟨b, out⟩
    ⟨rfl, by simp⟩
    (by
      rintro i ⟨b', o⟩ - hi ⟨hb', ho⟩
      simp only at hb' ho
      subst hb'
      have hi' : i < b'.length := by rw [hb.1]; omega
      have hlen : (b'[i]).length = N := hb.2 _ (List.getElem_mem _)
      have hrow := printRow_spec (List.getElem?_eq_getElem hi') N (le_of_eq hlen.symm) o
      refine ⟨⟨b', o ++ printedLine b'[i] ++ ['\n']⟩, ?_, rfl, ?_⟩
      · beta_reduce
        rw [hrow]
        simp only [← hlen, List.take_length]
      · simp only [ho, List.take_succ, List.getElem?_eq_getElem hi', Option.toList,
          List.flatMap_append, List.flatMap_cons, List.flatMap_nil, List.append_nil,
          List.append_assoc])
  obtain ⟨b', o⟩ := t
  simp only [Nat.zero_add] at h1 h2
  have : b.take N = b := by rw [← hb.1, List.take_length]
  rw [this] at h2
  unfold printLiveBoard
  rw [ht, h1, h2]

/-! ## The stability scan -/

/-- The inner loop of `stability` inside an `N×N` grid returns, and returns `true` exactly
when the two grids agree somewhere in the scanned part of the row. -/
theorem stabilityCols_spec {p q : Board} {N row : Nat} (hp : isRect p N N)
    (hq : isRect q N N) (hrow : row < N) :
    ∀ (n col : Nat), col + n ≤ N →
      ∃ b, stabilityCols p q row col n = some b ∧
        (b = true ↔ ∃ c, col ≤ c ∧ c < col + n ∧ readCell p row c = readCell q row c) := by
  intro n
  induction n with
  | zero =>
    intro col _
    exact ⟨false, rfl, by simp; intro c h1 h2; omega⟩
  | succ n ih =>
    intro col hcol
    obtain ⟨a, ha⟩ := readCell_isSome (r := row) (c := col) hp hrow (by omega)
    obtain ⟨b, hb⟩ := readCell_isSome (r := row) (c := col) hq hrow (by omega)
    by_cases hab : a = b
    · refine ⟨true, by simp [stabilityCols, ha, hb, hab], ?_⟩
      simp only [true_iff]
      exact ⟨col, le_refl _, by omega, by rw [ha, hb, hab]⟩
    · obtain ⟨r, hr, hiff⟩ := ih (col + 1) (by omega)
      refine ⟨r, by simp [stabilityCols, ha, hb, hab, hr], ?_⟩
      rw [hiff]
      constructor
      · rintro ⟨c, h1, h2, h3⟩
        exact ⟨c, by omega, by omega, h3⟩
      · rintro ⟨c, h1, h2, h3⟩
        have : c ≠ col := by
          rintro rfl
          rw [ha, hb] at h3
          exact hab (Option.some.inj h3)
        exact ⟨c, by omega, by omega, h3⟩

/-- The outer loop of `stability` inside an `N×N` grid returns, and returns `true` exactly
when the two grids agree somewhere in the scanned rows, between columns `1` and `N-2`. -/
theorem stabilityRows_spec {p q : Board} {N : Nat} (hp : isRect p N N) (hq : isRect q N N) :
    ∀ (n row : Nat), row + n ≤ N →
      ∃ b, stabilityRows p q N row n = some b ∧
        (b = true ↔ ∃ r c, row ≤ r ∧ r < row + n ∧ 1 ≤ c ∧ c + 2 ≤ N ∧
          readCell p r c = readCell q r c) := by
  intro n
  induction n with
  | zero =>
    intro row _
    exact ⟨false, rfl, by simp; intro r c h1 h2; omega⟩
  | succ n ih =>
    intro row hrow
    by_cases hN : N < 3
    · refine ⟨false, ?_, ?_⟩
      · have h0 : N - 1 - 1 = 0 := by omega
        have : ∀ m r, stabilityRows p q N r m = some false := by
          intro m
          induction m with
          | zero => intro r; rfl
          | succ m ihm => intro r; simp [stabilityRows, h0, stabilityCols, ihm]
        exact this _ _
      · simp only [Bool.false_eq_true, false_iff, not_exists, not_and]
        intro r c _ _ h1 h2
        omega
    · obtain ⟨b, hb, hiff⟩ := stabilityCols_spec hp hq (show row < N by omega) (N - 1 - 1) 1
        (by omega)
      cases b with
      | true =>
        obtain ⟨c, h1, h2, h3⟩ := hiff.mp rfl
        refine ⟨true, by simp [stabilityRows, hb], ?_⟩
        simp only [true_iff]
        exact ⟨row, c, le_refl _, by omega, h1, by omega, h3⟩
      | false =>
        obtain ⟨r, hr, hriff⟩ := ih (row + 1) (by omega)
        refine ⟨r, by simp [stabilityRows, hb, hr], ?_⟩
        rw [hriff]
        constructor
        · rintro ⟨r', c, h1, h2, h3, h4, h5⟩
          exact ⟨r', c, by omega, by omega, h3, h4, h5⟩
        · rintro ⟨r', c, h1, h2, h3, h4, h5⟩
          have : r' ≠ row := by
            rintro rfl
            have : false = true := hiff.mpr ⟨c, h3, by omega, h5⟩
            cases this
          exact ⟨r', c, by omega, by omega, h3, h4, h5⟩

/-! ## Seeding from a file -/

theorem tokens_ne_nil : ∀ (s : List Char) (t : List Char), t ∈ tokens s → t ≠ []
  | [], t, h => by simp [tokens] at h
  | c :: cs, t, h => by
    unfold tokens at h
    split at h
    · exact tokens_ne_nil cs t h
    · split at h
      · simp only [List.mem_singleton] at h
        subst h; simp
      · rename_i d ds
        split at h
        · rcases List.mem_cons.mp h with h | h
          · subst h; simp
          · exact tokens_ne_nil (d :: ds) t h
        · split at h
          · simp only [List.mem_singleton] at h
            subst h; simp
          · rename_i u us hu
            rcases List.mem_cons.mp h with h | h
            · subst h; simp
            · exact tokens_ne_nil (d :: ds) t (by rw [hu]; exact List.mem_cons_of_mem _ h)

/-- When the first token of a text is the single character `c`, skipping whitespace stops
at `c`, and the text after `c` holds the remaining tokens. -/
theorem skipws_of_tokens : ∀ (s : List Char) (c : Char) (rest : List (List Char)),
    tokens s = [c] :: rest → ∃ s', skipws s = c :: s' ∧ tokens s' = rest
  | [], c, rest, h => by simp [tokens] at h
  | x :: xs, c, rest, h => by
    unfold tokens at h
    split at h
    · rename_i hx
      obtain ⟨s', h1, h2⟩ := skipws_of_tokens xs c rest h
      exact ⟨s', by simp only [skipws, hx, if_true, h1], h2⟩
    · rename_i hx
      split at h
      · simp only [List.cons.injEq, and_true] at h
        obtain ⟨⟨rfl, -⟩, rfl⟩ := h
        exact ⟨[], by simp only [skipws, hx]; rfl, rfl⟩
      · rename_i d ds
        split at h
        · simp only [List.cons.injEq, and_true] at h
          obtain ⟨rfl, rfl⟩ := h
          exact ⟨d :: ds, by simp only [skipws, hx]; rfl, rfl⟩
        · split at h
          · rename_i hnil
            simp only [List.cons.injEq, and_true] at h
            obtain ⟨⟨rfl, -⟩, rfl⟩ := h
            exact ⟨d :: ds, by simp only [skipws, hx]; rfl, hnil⟩
          · rename_i u us hu
            simp only [List.cons.injEq] at h
            obtain ⟨⟨-, rfl⟩, -⟩ := h
            exact absurd rfl (tokens_ne_nil (d :: ds) [] (by rw [hu]; simp))

/-- The extraction `inf >> ch` on a good stream whose first token is the single
character `c`: it yields `c`, stays good, and leaves the remaining tokens. -/
theorem extractChar_of_tokens {s : List Char} {c : Char} {rest : List (List Char)}
    (h : tokens s = [c] :: rest) :
    ∃ s', extractChar ⟨s, false⟩ = (⟨s', false⟩, some c) ∧ tokens s' = rest := by
  obtain ⟨s', h1, h2⟩ := skipws_of_tokens s c rest h
  exact ⟨s', by simp [extractChar, h1], h2⟩

theorem rowMajor_lt {N row col : Nat} (hr : row < N) (hc : col < N) :
    row * N + col < N * N := by
  have h1 : (row + 1) * N ≤ N * N := Nat.mul_le_mul_right N hr
  rw [Nat.succ_mul] at h1
  omega

/-- Row-major indices below `row * N + col` are those of the rows before `row` and of the
columns before `col` in row `row`. -/
theorem rowMajor_lt_iff {N row col r c : Nat} (hc : c < N) (hcol : col ≤ N) :
    r * N + c < row * N + col ↔ (r < row ∨ (r = row ∧ c < col)) := by
  constructor
  · intro h
    by_contra hne
    have hr : row ≤ r := by omega
    have : row * N ≤ r * N := Nat.mul_le_mul_right N hr
    rcases Nat.eq_or_lt_of_le hr with e | e
    · subst e; omega
    · have h1 : (row + 1) * N ≤ r * N := Nat.mul_le_mul_right N e
      rw [Nat.succ_mul] at h1
      omega
  · rintro (h | ⟨rfl, h⟩)
    · have h1 : (r + 1) * N ≤ row * N := Nat.mul_le_mul_right N h
      rw [Nat.succ_mul] at h1
      omega
    · omega

/-- On an `N×N` grid and a good stream whose first `N·N` tokens are the single characters
`ts`, `seedFromFile` returns, stores `ts` in row-major order, and leaves the stream good
with exactly the tokens after the first `N·N`. -/
theorem seedFromFile_spec {b : Board} {N : Nat} (hb : isRect b N N) (src : List Char)
    (ts : List Char) (more : List (List Char)) (hlen : ts.length = N * N)
    (htok : tokens src = ts.map (fun t => [t]) ++ more) :
    ∃ b' rest, seedFromFile b ⟨src, false⟩ N = some (b', ⟨rest, false⟩) ∧ isRect b' N N ∧
      tokens rest = more ∧
      ∀ row col, row < N → col < N → readCell b' row col = ts[row * N + col]? := by
  obtain ⟨⟨b', inf⟩, ht, hR, hF, hT, hC⟩ := forLoop2_some seedCell
    (fun row col (t : Board × IStream) => isRect t.1 N N ∧ t.2.failed = false ∧
      tokens t.2.input = (ts.drop (row * N + col)).map (fun t => [t]) ++ more ∧
      ∀ r c, r < N → c < N → (r < row ∨ (r = row ∧ c < col)) →
        readCell t.1 r c = ts[r * N + c]?)
    0 N 0 N (b, ⟨src, false⟩)
    ⟨hb, rfl, by simpa using htok, fun r c _ _ h => by omega⟩
    (by
      rintro row col ⟨t, ⟨inp, fl⟩⟩ - hr - hc ⟨hR, hF, hT, hC⟩
      simp only at hR hF hT hC
      subst hF
      have hr' : row < N := by omega
      have hc' : col < N := by omega
      have hk : row * N + col < ts.length := by rw [hlen]; exact rowMajor_lt hr' hc'
      rw [List.drop_eq_getElem_cons hk, List.map_cons, List.cons_append] at hT
      obtain ⟨s', he, hs'⟩ := extractChar_of_tokens hT
      obtain ⟨v, hv⟩ := readCell_isSome (r := row) (c := col) hR hr' hc'
      obtain ⟨t', ht'⟩ := writeCell_isSome (r := row) (c := col) ts[row * N + col] hR hr' hc'
      refine ⟨(t', ⟨s', false⟩), ?_, writeCell_rect ht' hR, rfl, ?_, fun r c hrN hcN hd => ?_⟩
      · simp only [seedCell, hv, he, ht']
      · simpa [Nat.add_assoc] using hs'
      · rw [readCell_writeCell ht']
        by_cases h : r = row ∧ c = col
        · obtain ⟨rfl, rfl⟩ := h
          simp [List.getElem?_eq_getElem hk]
        · rw [if_neg h]
          exact hC r c hrN hcN (by omega))
    (by
      rintro row ⟨t, inf⟩ - hr ⟨hR, hF, hT, hC⟩
      refine ⟨hR, hF, ?_, fun r c hrN hcN hd => hC r c hrN hcN (by omega)⟩
      have : (row + 1) * N + 0 = row * N + (0 + N) := by rw [Nat.succ_mul]; omega
      rw [this]; exact hT)
  obtain ⟨rest, fl⟩ := inf
  simp only at hR hF hT hC
  subst hF
  refine ⟨b', rest, ht, hR, ?_, fun row col hr hc => hC row col hr hc (by omega)⟩
  have : (0 + N) * N + 0 = ts.length := by rw [hlen, Nat.zero_add, Nat.add_zero]
  rw [this, List.drop_length] at hT
  simpa using hT

/-! ## Generations of a pattern -/

theorem mem_mooreNeighbours {r c : Nat} (hr : 1 ≤ r) (hc : 1 ≤ c) (p : Nat × Nat) :
    p ∈ mooreNeighbours r c ↔ adjacent r c p := by
  obtain ⟨x, y⟩ := p
  simp only [mooreNeighbours, adjacent, List.mem_cons, Prod.mk.injEq, List.mem_singleton,
    List.not_mem_nil, or_false]
  omega

theorem mooreNeighbours_nodup {r c : Nat} (hr : 1 ≤ r) (hc : 1 ≤ c) :
    (mooreNeighbours r c).Nodup := by
  simp only [mooreNeighbours, List.nodup_cons, List.mem_cons, Prod.mk.injEq, List.mem_singleton,
    List.not_mem_nil, or_false, List.nodup_nil, and_true, not_false_eq_true]
  omega

/-- Counting the members of `M` that lie in `A` is counting the members of `A` that lie
in `M`, for lists without repetition. -/
theorem countP_mem_comm {α : Type} {A M : List α} [instA : ∀ p, Decidable (p ∈ A)]
    [instM : ∀ p, Decidable (p ∈ M)] (hA : A.Nodup) (hM : M.Nodup) :
    M.countP (fun p => @decide (p ∈ A) (instA p)) =
      A.countP (fun p => @decide (p ∈ M) (instM p)) := by
  rw [List.countP_eq_length_filter, List.countP_eq_length_filter]
  apply List.Perm.length_eq
  rw [List.perm_ext_iff_of_nodup (hM.filter _) (hA.filter _)]
  intro a
  simp only [List.mem_filter, decide_eq_true_eq]
  tauto

/-- In a grid described by a pattern of interior cells, the cells holding `'O'` are the
cells of the pattern. -/
theorem hasPattern_alive_iff {b : Board} {N : Nat} {A : List (Nat × Nat)}
    (hb : hasPattern b N A) (hAi : ∀ p ∈ A, interior N p.1 p.2) (r c : Nat) :
    readCell b r c = some 'O' ↔ (r, c) ∈ A := by
  obtain ⟨hR, hB, hI⟩ := hb
  constructor
  · intro h
    obtain ⟨hr, hc⟩ := readCell_lt hR h
    rcases border_or_interior hr hc with hbd | hi
    · rw [hB r hr c hc hbd] at h
      exact absurd h (by decide)
    · rw [hI r hr c hc hi] at h
      by_contra hne
      rw [if_neg hne] at h
      exact absurd h (by decide)
  · intro h
    have hi := hAi (r, c) h
    have hr : r < N := by unfold interior at hi; omega
    have hc : c < N := by unfold interior at hi; omega
    rw [hI r hr c hc hi, if_pos h]

/-- The neighbour count of a cell in a grid described by a pattern, counted from the
pattern: the number of pattern cells adjacent to the cell. -/
theorem aliveNeighbours_pattern {b : Board} {N : Nat} {A : List (Nat × Nat)}
    (hb : hasPattern b N A) (hA : A.Nodup) (hAi : ∀ p ∈ A, interior N p.1 p.2)
    {r c : Nat} (hr : 1 ≤ r) (hc : 1 ≤ c) :
    aliveNeighbours b r c = A.countP (fun a => decide (adjacent r c a)) := by
  unfold aliveNeighbours
  have h1 : (mooreNeighbours r c).countP (fun p => decide (readCell b p.1 p.2 = some 'O')) =
      (mooreNeighbours r c).countP (fun p => decide (p ∈ A)) := by
    congr 1
    funext p
    rw [decide_eq_decide]
    exact hasPattern_alive_iff hb hAi p.1 p.2
  rw [h1, countP_mem_comm hA (mooreNeighbours_nodup hr hc)]
  congr 1
  funext p
  rw [decide_eq_decide]
  exact mem_mooreNeighbours hr hc p

/-- One generation step on a grid described by a pattern `A` of interior cells gives the
grid described by `B`, when `B` is what the rule makes of `A` at every interior cell. -/
theorem pattern_step {b : Board} {N : Nat} {A B : List (Nat × Nat)}
    (hb : hasPattern b N A) (hA : A.Nodup) (hAi : ∀ p ∈ A, interior N p.1 p.2)
    (hrule : ∀ r c, interior N r c →
      ((((r, c) ∈ A ∧ (A.countP (fun a => decide (adjacent r c a)) = 2 ∨
            A.countP (fun a => decide (adjacent r c a)) = 3)) ∨
          ((r, c) ∉ A ∧ A.countP (fun a => decide (adjacent r c a)) = 3)) ↔ (r, c) ∈ B)) :
    ∃ b1, generation ⟨b, b⟩ N = some ⟨b1, b1⟩ ∧ hasPattern b1 N B := by
  obtain ⟨b1, hg, hR1, hcell⟩ := generation_spec hb.1
  refine ⟨b1, hg, hR1, fun r hr c hc hbd => ?_, fun r hr c hc hi => ?_⟩
  · rw [hcell, if_neg (by unfold interior; unfold border at hbd; omega)]
    exact hb.2.1 r hr c hc hbd
  · rw [hcell, if_pos hi, cellAt, hb.2.2 r hr c hc hi,
      aliveNeighbours_pattern hb hA hAi hi.1 hi.2.2.1]
    have h := hrule r c hi
    simp only [Option.getD_some, Option.some.injEq]
    by_cases hm : (r, c) ∈ A
    · simp only [hm, true_and, not_true_eq_false, false_and, or_false] at h
      simp only [hm, if_true, tickValue]
      by_cases hm' : (r, c) ∈ B
      · rw [if_pos (h.mpr hm'), if_pos hm']
      · rw [if_neg (fun hn => hm' (h.mp hn)), if_neg hm']
    · simp only [hm, false_and, not_false_eq_true, true_and, false_or] at h
      simp only [hm, if_false, tickValue]
      have hne : ¬ ('.' = 'O') := by decide
      rw [if_neg hne]
      by_cases hm' : (r, c) ∈ B
      · rw [if_pos ⟨trivial, h.mpr hm'⟩, if_pos hm']
      · rw [if_neg (fun hn => hm' (h.mp hn.2)), if_neg hm']

theorem blinker_rule_h (r0 c0 r c : Nat) (hr0 : 1 ≤ r0) (hc0 : 2 ≤ c0) :
    (((r, c) ∈ [(r0, c0 - 1), (r0, c0), (r0, c0 + 1)] ∧
        ([(r0, c0 - 1), (r0, c0), (r0, c0 + 1)].countP (fun a => decide (adjacent r c a)) = 2 ∨
          [(r0, c0 - 1), (r0, c0), (r0, c0 + 1)].countP
            (fun a => decide (adjacent r c a)) = 3)) ∨
      ((r, c) ∉ [(r0, c0 - 1), (r0, c0), (r0, c0 + 1)] ∧
        [(r0, c0 - 1), (r0, c0), (r0, c0 + 1)].countP (fun a => decide (adjacent r c a)) = 3)) ↔
    (r, c) ∈ [(r0 - 1, c0), (r0, c0), (r0 + 1, c0)] := by
  simp only [adjacent, List.countP_cons, List.countP_nil, List.mem_cons, Prod.mk.injEq,
    List.mem_singleton, decide_eq_true_eq, List.not_mem_nil, or_false, Nat.zero_add]
  split_ifs <;> omega

theorem blinker_rule_v (r0 c0 r c : Nat) (hr0 : 2 ≤ r0) (hc0 : 1 ≤ c0) :
    (((r, c) ∈ [(r0 - 1, c0), (r0, c0), (r0 + 1, c0)] ∧
        ([(r0 - 1, c0), (r0, c0), (r0 + 1, c0)].countP (fun a => decide (adjacent r c a)) = 2 ∨
          [(r0 - 1, c0), (r0, c0), (r0 + 1, c0)].countP
            (fun a => decide (adjacent r c a)) = 3)) ∨
      ((r, c) ∉ [(r0 - 1, c0), (r0, c0), (r0 + 1, c0)] ∧
        [(r0 - 1, c0), (r0, c0), (r0 + 1, c0)].countP (fun a => decide (adjacent r c a)) = 3)) ↔
    (r, c) ∈ [(r0, c0 - 1), (r0, c0), (r0, c0 + 1)] := by
  simp only [adjacent, List.countP_cons, List.countP_nil, List.mem_cons, Prod.mk.injEq,
    List.mem_singleton, decide_eq_true_eq, List.not_mem_nil, or_false, Nat.zero_add]
  split_ifs <;> omega

theorem block_rule (r0 c0 r c : Nat) :
    (((r, c) ∈ [(r0, c0), (r0, c0 + 1), (r0 + 1, c0), (r0 + 1, c0 + 1)] ∧
        ([(r0, c0), (r0, c0 + 1), (r0 + 1, c0), (r0 + 1, c0 + 1)].countP
            (fun a => decide (adjacent r c a)) = 2 ∨
          [(r0, c0), (r0, c0 + 1), (r0 + 1, c0), (r0 + 1, c0 + 1)].countP
            (fun a => decide (adjacent r c a)) = 3)) ∨
      ((r, c) ∉ [(r0, c0), (r0, c0 + 1), (r0 + 1, c0), (r0 + 1, c0 + 1)] ∧
        [(r0, c0), (r0, c0 + 1), (r0 + 1, c0), (r0 + 1, c0 + 1)].countP
          (fun a => decide (adjacent r c a)) = 3)) ↔
    (r, c) ∈ [(r0, c0), (r0, c0 + 1), (r0 + 1, c0), (r0 + 1, c0 + 1)] := by
  simp only [adjacent, List.countP_cons, List.countP_nil, List.mem_cons, Prod.mk.injEq,
    List.mem_singleton, decide_eq_true_eq, List.not_mem_nil, or_false, Nat.zero_add]
  split_ifs <;> omega

/-! ## Iterated generations -/

/-- Any number of generation steps from `snapshotBoard = liveBoard` on an `N×N` grid
returns, again with two equal `N×N` grids, and keeps every cell outside the interior. -/
theorem generations_keep {N : Nat} (k : Nat) :
    ∀ {L : Board}, isRect L N N →
      ∃ L', generations N k ⟨L, L⟩ = some ⟨L', L'⟩ ∧ isRect L' N N ∧
        ∀ r c, ¬ interior N r c → readCell L' r c = readCell L r c := by
  induction k with
  | zero => intro L hL; exact ⟨L, rfl, hL, fun _ _ _ => rfl⟩
  | succ k ih =>
    intro L hL
    obtain ⟨L1, hg, hL1, hc⟩ := generation_spec hL
    obtain ⟨L', hk, hL', hB'⟩ := ih hL1
    refine ⟨L', by simp only [generations, hg, hk], hL', fun r c hn => ?_⟩
    rw [hB' r c hn, hc, if_neg hn]

/-- The step `k + 1` of the loop is one generation step after the first `k`. -/
theorem generations_succ (N : Nat) (k : Nat) :
    ∀ s : Boards, generations N (k + 1) s =
      match generations N k s with
      | none => none
      | some t => generation t N := by
  induction k with
  | zero =>
    intro s
    simp only [generations]
    cases generation s N <;> rfl
  | succ k ih =>
    intro s
    rw [generations]
    cases hg : generation s N with
    | none => simp only [generations, hg]
    | some t =>
      simp only
      rw [ih t]
      simp only [generations, hg]

/-- On an `N×N` grid `gridAfter` is the grid both boards hold after `k` steps. -/
theorem gridAfter_spec {N : Nat} {L : Board} (hL : isRect L N N) (k : Nat) :
    generations N k ⟨L, L⟩ = some ⟨gridAfter N L k, gridAfter N L k⟩ ∧
      isRect (gridAfter N L k) N N := by
  obtain ⟨L', hk, hL', -⟩ := generations_keep k hL
  have : gridAfter N L k = L' := by simp only [gridAfter, hk]
  rw [this]
  exact ⟨hk, hL'⟩

theorem gridAfter_succ {N : Nat} {L : Board} (hL : isRect L N N) (k : Nat) :
    generation ⟨gridAfter N L k, gridAfter N L k⟩ N =
      some ⟨gridAfter N L (k + 1), gridAfter N L (k + 1)⟩ := by
  have h1 := (gridAfter_spec hL (k + 1)).1
  rw [generations_succ, (gridAfter_spec hL k).1] at h1
  exact h1

/-! ## Random seeding -/

theorem rowOffset_succ {row M : Nat} (hr : 1 ≤ row) : row * M = (row - 1) * M + M := by
  obtain ⟨k, rfl⟩ : ∃ k, row = k + 1 := ⟨row - 1, by omega⟩
  rw [Nat.succ_mul]
  simp

/-- On an `N×N` grid `seedRandomly` returns after `(N-2)·(N-2)` calls of `rand()`; the
interior cell `(r, c)` holds `'.'` or `'O'` as the call number `(r-1)·(N-2) + (c-1)`
returned an even or an odd value, and every other cell is kept. -/
theorem seedRandomly_spec {b : Board} {N : Nat} (rand : Nat → Nat) (hb : isRect b N N) :
    ∃ b', seedRandomly rand b N = some (b', (N - 2) * (N - 2)) ∧ isRect b' N N ∧
      ∀ r c, readCell b' r c =
        if interior N r c then
          some (if rand ((r - 1) * (N - 2) + (c - 1)) % 2 = 0 then '.' else 'O')
        else readCell b r c := by
  have hM : N - 1 - 1 = N - 2 := by omega
  unfold seedRandomly
  rw [hM]
  obtain ⟨⟨b', n⟩, ht, hR, hn, hC⟩ := forLoop2_some (seedRandomCell rand)
    (fun row col (t : Board × Nat) => isRect t.1 N N ∧
      t.2 = (row - 1) * (N - 2) + (col - 1) ∧
      ∀ r c, readCell t.1 r c =
        if 1 ≤ r ∧ 1 ≤ c ∧ c < 1 + (N - 2) ∧ (r < row ∨ (r = row ∧ c < col)) then
          some (if rand ((r - 1) * (N - 2) + (c - 1)) % 2 = 0 then '.' else 'O')
        else readCell b r c)
    1 (N - 2) 1 (N - 2) (b, 0)
    ⟨hb, by simp, fun r c => by
      have : ¬ (1 ≤ r ∧ 1 ≤ c ∧ c < 1 + (N - 2) ∧ (r < 1 ∨ (r = 1 ∧ c < 1))) := by omega
      rw [if_neg this]⟩
    (by
      rintro row col ⟨t, n⟩ hr hr' hc hc' ⟨hR, hn, hC⟩
      simp only at hR hn hC
      subst hn
      obtain ⟨t', ht'⟩ : ∃ t', writeCell t row col
          (if rand ((row - 1) * (N - 2) + (col - 1)) % 2 = 0 then '.' else 'O') = some t' :=
        writeCell_isSome _ hR (by omega) (by omega)
      refine ⟨(t', (row - 1) * (N - 2) + (col - 1) + 1), ?_, writeCell_rect ht' hR,
        by simp only; omega, fun r c => ?_⟩
      · simp only [seedRandomCell]
        by_cases h0 : rand ((row - 1) * (N - 2) + (col - 1)) % 2 = 0
        · simp only [h0, if_true] at ht' ⊢
          rw [ht']
        · simp only [h0, if_false] at ht' ⊢
          rw [ht']
      · simp only
        rw [readCell_writeCell ht', hC]
        by_cases h : r = row ∧ c = col
        · obtain ⟨rfl, rfl⟩ := h
          have : 1 ≤ r ∧ 1 ≤ c ∧ c < 1 + (N - 2) ∧ (r < r ∨ (r = r ∧ c < c + 1)) := by omega
          rw [if_pos ⟨rfl, rfl⟩, if_pos this]
        · rw [if_neg h]
          have : (1 ≤ r ∧ 1 ≤ c ∧ c < 1 + (N - 2) ∧ (r < row ∨ (r = row ∧ c < col))) ↔
              (1 ≤ r ∧ 1 ≤ c ∧ c < 1 + (N - 2) ∧ (r < row ∨ (r = row ∧ c < col + 1))) := by
            omega
          simp only [this])
    (by
      rintro row ⟨t, n⟩ hr hr' ⟨hR, hn, hC⟩
      simp only at hR hn hC
      refine ⟨hR, ?_, fun r c => ?_⟩
      · simp only
        rw [hn, Nat.add_sub_cancel, rowOffset_succ hr]
        omega
      · simp only
        rw [hC]
        have : (1 ≤ r ∧ 1 ≤ c ∧ c < 1 + (N - 2) ∧ (r < row ∨ (r = row ∧ c < 1 + (N - 2)))) ↔
            (1 ≤ r ∧ 1 ≤ c ∧ c < 1 + (N - 2) ∧ (r < row + 1 ∨ (r = row + 1 ∧ c < 1))) := by
          omega
        simp only [this])
  simp only at hR hn hC
  refine ⟨b', ?_, hR, fun r c => ?_⟩
  · rw [ht, hn]
    have : 1 + (N - 2) - 1 = N - 2 := by omega
    rw [this, Nat.sub_self, Nat.add_zero]
  · rw [hC]
    have : (1 ≤ r ∧ 1 ≤ c ∧ c < 1 + (N - 2) ∧ (r < 1 + (N - 2) ∨ (r = 1 + (N - 2) ∧ c < 1))) ↔
        interior N r c := by
      unfold interior; omega
    simp only [this]

/-! ## Well-formed grids -/

theorem tickValue_alive_or_dead {v : Char} (h : v = 'O' ∨ v = '.') (n : Nat) :
    tickValue v n v = 'O' ∨ tickValue v n v = '.' := by
  unfold tickValue
  rcases h with rfl | rfl
  · by_cases h23 : n = 2 ∨ n = 3
    · left; simp [h23]
    · right; simp [h23]
  · by_cases h3 : n = 3
    · left; simp [h3]
    · right; simp [h3]

/-- One generation step keeps a well-formed grid well formed. -/
theorem wellFormed_generation {L : Board} {N : Nat} (h : wellFormed L N) :
    ∃ L', generation ⟨L, L⟩ N = some ⟨L', L'⟩ ∧ wellFormed L' N := by
  obtain ⟨hR, hB, hI⟩ := h
  obtain ⟨L', hg, hR', hc⟩ := generation_spec hR
  refine ⟨L', hg, hR', fun r hr c hc' hb => ?_, fun r hr c hc' hi => ?_⟩
  · rw [hc, if_neg (by unfold interior; unfold border at hb; omega)]
    exact hB r hr c hc' hb
  · rw [hc, if_pos hi]
    have hv : cellAt L r c = 'O' ∨ cellAt L r c = '.' := by
      rcases hI r hr c hc' hi with h | h
      · left; exact cellAt_eq h
      · right; exact cellAt_eq h
    rcases tickValue_alive_or_dead hv (aliveNeighbours L r c) with h | h
    · left; rw [h]
    · right; rw [h]

/-! ## The loop of `main` -/

/-- On two equal `N×N` grids the body of the loop returns: both grids become the next
generation, and the header and the printed next generation are appended to `cout`. -/
theorem loopBody_spec {N : Nat} {L : Board} (hL : isRect L N N) (i : Nat) (out : List Char) :
    ∃ L', generation ⟨L, L⟩ N = some ⟨L', L'⟩ ∧ isRect L' N N ∧
      loopBody N i ⟨⟨L, L⟩, out⟩ =
        some ⟨⟨L', L'⟩, out ++ (header i ++ L'.flatMap (fun row => printedLine row ++ ['\n']))⟩ := by
  obtain ⟨S', ht, hS', -⟩ := tick_spec hL hL
  have hcopy := copySnapshotBoard_spec hL hS'
  refine ⟨S', by simp only [generation, ht, hcopy], hS', ?_⟩
  simp only [loopBody, ht, hcopy, printLiveBoard_spec hS', List.append_assoc]

/-- The loop of `main` entered with `iteration = j < 10000` on the grids of generation `j`
returns with `iteration = 10000`, the grids of generation `10000`, and the frames
`j+1, …, 10000` appended to `cout`. -/
theorem generationLoop_spec {N : Nat} {L : Board} (hL : isRect L N N) :
    ∀ (m j : Nat), j + (m + 1) = 10000 → ∀ out : List Char,
      generationLoop N j ⟨⟨gridAfter N L j, gridAfter N L j⟩, out⟩ =
        some (10000, ⟨⟨gridAfter N L 10000, gridAfter N L 10000⟩,
          out ++ (List.range' (j + 1) (m + 1)).flatMap (frame N L)⟩) := by
  intro m
  induction m with
  | zero =>
    intro j hj out
    obtain ⟨L', hg, -, hb⟩ := loopBody_spec (gridAfter_spec hL j).2 (j + 1) out
    rw [gridAfter_succ hL j, Option.some.injEq, Boards.mk.injEq] at hg
    obtain ⟨rfl, -⟩ := hg
    rw [generationLoop, hb]
    have h1 : ¬ j + 1 < 10000 := by omega
    have h2 : j + 1 = 10000 := by omega
    dsimp only
    rw [dif_neg h1, h2]
    simp only [frame, Nat.zero_add, List.range'_one, List.flatMap_cons, List.flatMap_nil,
      List.append_nil]
  | succ m ih =>
    intro j hj out
    obtain ⟨L', hg, -, hb⟩ := loopBody_spec (gridAfter_spec hL j).2 (j + 1) out
    rw [gridAfter_succ hL j, Option.some.injEq, Boards.mk.injEq] at hg
    obtain ⟨rfl, -⟩ := hg
    rw [generationLoop, hb]
    have h1 : j + 1 < 10000 := by omega
    dsimp only
    rw [dif_pos h1, ih (j + 1) (by omega)]
    simp only [frame, List.range'_succ (j + 1), List.flatMap_cons, List.append_assoc]

/-- Whenever the loop of `main` returns, on any grids, `iteration` is `10000`. -/
theorem generationLoop_iteration (N : Nat) :
    ∀ (m j : Nat) (s : LoopState) (r : Nat × LoopState), j + (m + 1) = 10000 →
      generationLoop N j s = some r → r.1 = 10000 := by
  intro m
  induction m with
  | zero =>
    intro j s r hj h
    rw [generationLoop] at h
    cases hb : loopBody N (j + 1) s with
    | none => simp [hb] at h
    | some t =>
      have h1 : ¬ j + 1 < 10000 := by omega
      simp only [hb, h1, dite_false, Option.some.injEq] at h
      rw [← h]
      omega
  | succ m ih =>
    intro j s r hj h
    rw [generationLoop] at h
    cases hb : loopBody N (j + 1) s with
    | none => simp [hb] at h
    | some t =>
      have h1 : j + 1 < 10000 := by omega
      simp only [hb, h1, dite_true] at h
      exact ih (j + 1) t r (by omega) h

/-! ## Seeding from any file -/

/-- On an `N×N` grid `seedFromFile` returns an `N×N` grid, whatever the stream holds. -/
theorem seedFromFile_total {b : Board} {N : Nat} (hb : isRect b N N) (inf : IStream) :
    ∃ b' inf', seedFromFile b inf N = some (b', inf') ∧ isRect b' N N := by
  obtain ⟨⟨b', inf'⟩, ht, hR⟩ := forLoop2_some seedCell
    (fun _ _ (t : Board × IStream) => isRect t.1 N N) 0 N 0 N (b, inf) hb
    (by
      rintro row col ⟨t, i⟩ - hr - hc hR
      simp only at hR
      obtain ⟨v, hv⟩ := readCell_isSome (r := row) (c := col) hR (by omega) (by omega)
      cases he : extractChar i with
      | mk i' o =>
        cases o with
        | none => exact ⟨(t, i'), by simp only [seedCell, hv, he], hR⟩
        | some x =>
          obtain ⟨t', ht'⟩ := writeCell_isSome (r := row) (c := col) x hR (by omega) (by omega)
          exact ⟨(t', i'), by simp only [seedCell, hv, he, ht'], writeCell_rect ht' hR⟩)
    (fun _ _ _ _ h => h)
  exact ⟨b', inf', ht, hR⟩

theorem skipws_of_tokens_nil : ∀ s : List Char, tokens s = [] → skipws s = []
  | [], _ => rfl
  | c :: cs, h => by
    unfold tokens at h
    split at h
    · rename_i hc
      simp only [skipws, hc, if_true]
      exact skipws_of_tokens_nil cs h
    · split at h
      · cases h
      · split at h
        · cases h
        · split at h <;> cases h

/-- On an `N×N` grid and a good stream holding fewer than `N·N` tokens, all of one
character, `seedFromFile` returns normally with the stream failed: the cells before the
first missing token, in row-major order, hold the tokens, every other cell its old symbol. -/
theorem seedFromFile_short {b : Board} {N : Nat} (hb : isRect b N N) (src : List Char)
    (ts : List Char) (hlen : ts.length < N * N)
    (htok : tokens src = ts.map (fun t => [t])) :
    ∃ b' rest, seedFromFile b ⟨src, false⟩ N = some (b', ⟨rest, true⟩) ∧ isRect b' N N ∧
      ∀ row col, row < N → col < N →
        readCell b' row col =
          if row * N + col < ts.length then ts[row * N + col]? else readCell b row col := by
  obtain ⟨⟨b', inf⟩, ht, hR, -, hF, hC⟩ := forLoop2_some seedCell
    (fun row col (t : Board × IStream) => isRect t.1 N N ∧
      (row * N + col ≤ ts.length → t.2.failed = false ∧
        tokens t.2.input = (ts.drop (row * N + col)).map (fun t => [t])) ∧
      (ts.length < row * N + col → t.2.failed = true) ∧
      ∀ r c, r < N → c < N → readCell t.1 r c =
        if (r < row ∨ (r = row ∧ c < col)) ∧ r * N + c < ts.length then ts[r * N + c]?
        else readCell b r c)
    0 N 0 N (b, ⟨src, false⟩)
    ⟨hb, fun _ => ⟨rfl, by simpa using htok⟩, fun h => by simp at h, fun r c _ _ => by
      have : ¬ ((r < 0 ∨ (r = 0 ∧ c < 0)) ∧ r * N + c < ts.length) := by omega
      rw [if_neg this]⟩
    (by
      rintro row col ⟨t, ⟨inp, fl⟩⟩ - hr - hc ⟨hR, hG, hB, hC⟩
      simp only at hR hG hB hC
      have hr' : row < N := by omega
      have hc' : col < N := by omega
      obtain ⟨v, hv⟩ := readCell_isSome (r := row) (c := col) hR hr' hc'
      have hcur : readCell t row col = readCell b row col := by
        rw [hC row col hr' hc']
        have : ¬ ((row < row ∨ (row = row ∧ col < col)) ∧ row * N + col < ts.length) := by
          omega
        rw [if_neg this]
      rcases Nat.lt_trichotomy (row * N + col) ts.length with hk | hk | hk
      · obtain ⟨hfl, hT⟩ := hG (by omega)
        subst hfl
        rw [List.drop_eq_getElem_cons hk, List.map_cons] at hT
        obtain ⟨s', he, hs'⟩ := extractChar_of_tokens hT
        obtain ⟨t', ht'⟩ := writeCell_isSome (r := row) (c := col) ts[row * N + col] hR hr' hc'
        refine ⟨(t', ⟨s', false⟩), by simp only [seedCell, hv, he, ht'], writeCell_rect ht' hR,
          fun _ => ⟨rfl, by simpa [Nat.add_assoc] using hs'⟩, fun h => by omega,
          fun r c hrN hcN => ?_⟩
        rw [readCell_writeCell ht']
        by_cases h : r = row ∧ c = col
        · obtain ⟨rfl, rfl⟩ := h
          have : (r < r ∨ (r = r ∧ c < c + 1)) ∧ r * N + c < ts.length := ⟨by omega, hk⟩
          rw [if_pos ⟨rfl, rfl⟩, if_pos this, List.getElem?_eq_getElem hk]
        · rw [if_neg h, hC r c hrN hcN]
          have : ((r < row ∨ (r = row ∧ c < col)) ∧ r * N + c < ts.length) ↔
              ((r < row ∨ (r = row ∧ c < col + 1)) ∧ r * N + c < ts.length) := by omega
          simp only [this]
      · obtain ⟨hfl, hT⟩ := hG (by omega)
        subst hfl
        rw [hk, List.drop_length, List.map_nil] at hT
        have he : extractChar ⟨inp, false⟩ = (⟨[], true⟩, none) := by
          simp [extractChar, skipws_of_tokens_nil inp hT]
        refine ⟨(t, ⟨[], true⟩), by simp only [seedCell, hv, he], hR, fun h => by omega,
          fun _ => rfl, fun r c hrN hcN => ?_⟩
        rw [hC r c hrN hcN]
        by_cases h : r = row ∧ c = col
        · obtain ⟨rfl, rfl⟩ := h
          have h1 : ¬ ((r < r ∨ (r = r ∧ c < c)) ∧ r * N + c < ts.length) := by omega
          have h2 : ¬ ((r < r ∨ (r = r ∧ c < c + 1)) ∧ r * N + c < ts.length) := by omega
          rw [if_neg h1, if_neg h2]
        · have : ((r < row ∨ (r = row ∧ c < col)) ∧ r * N + c < ts.length) ↔
              ((r < row ∨ (r = row ∧ c < col + 1)) ∧ r * N + c < ts.length) := by omega
          simp only [this]
      · have hfl : fl = true := hB hk
        subst hfl
        have he : extractChar ⟨inp, true⟩ = (⟨inp, true⟩, none) := by simp [extractChar]
        refine ⟨(t, ⟨inp, true⟩), by simp only [seedCell, hv, he], hR, fun h => by omega,
          fun _ => rfl, fun r c hrN hcN => ?_⟩
        rw [hC r c hrN hcN]
        by_cases h : r = row ∧ c = col
        · obtain ⟨rfl, rfl⟩ := h
          have h1 : ¬ ((r < r ∨ (r = r ∧ c < c)) ∧ r * N + c < ts.length) := by omega
          have h2 : ¬ ((r < r ∨ (r = r ∧ c < c + 1)) ∧ r * N + c < ts.length) := by omega
          rw [if_neg h1, if_neg h2]
        · have : ((r < row ∨ (r = row ∧ c < col)) ∧ r * N + c < ts.length) ↔
              ((r < row ∨ (r = row ∧ c < col + 1)) ∧ r * N + c < ts.length) := by omega
          simp only [this])
    (by
      rintro row ⟨t, inf⟩ - hr ⟨hR, hG, hB, hC⟩
      have e : (row + 1) * N + 0 = row * N + (0 + N) := by rw [Nat.succ_mul]; omega
      refine ⟨hR, ?_, ?_, fun r c hrN hcN => ?_⟩
      · rw [e]; exact hG
      · rw [e]; exact hB
      rw [hC r c hrN hcN]
      have : ((r < row ∨ (r = row ∧ c < 0 + N)) ∧ r * N + c < ts.length) ↔
          ((r < row + 1 ∨ (r = row + 1 ∧ c < 0)) ∧ r * N + c < ts.length) := by omega
      simp only [this])
  obtain ⟨rest, fl⟩ := inf
  simp only at hR hF hC
  have hfl : fl = true := hF (by
    have : (0 + N) * N + 0 = N * N := by rw [Nat.zero_add, Nat.add_zero]
    rw [this]; exact hlen)
  subst hfl
  refine ⟨b', rest, ht, hR, fun row col hr hc => ?_⟩
  rw [hC row col hr hc]
  have : ((row < 0 + N ∨ (row = 0 + N ∧ col < 0)) ∧ row * N + col < ts.length) ↔
      row * N + col < ts.length := by omega
  simp only [this]

/-! ## Printing and reading back -/

theorem tokens_cons_space {c : Char} (hc : isspace c = true) (s : List Char) :
    tokens (c :: s) = tokens s := by
  cases s <;> simp only [tokens, hc, if_true]

theorem tokens_cons_symbol {v : Char} (hv : isspace v = false) (s : List Char) :
    tokens (v :: ' ' :: s) = [v] :: tokens s := by
  have hs : isspace ' ' = true := by decide
  simp only [tokens, hv, hs, if_true, Bool.false_eq_true, if_false]
  rw [tokens_cons_space hs]

/-- The tokens of a printed row followed by more text: the symbols of the row, one token
each, then the tokens of the rest. -/
theorem tokens_printedLine (row : List Char) (hrow : ∀ v ∈ row, isspace v = false)
    (rest : List Char) :
    tokens (printedLine row ++ rest) = row.map (fun v => [v]) ++ tokens rest := by
  induction row with
  | nil => rfl
  | cons v vs ih =>
    have e : printedLine (v :: vs) ++ rest = v :: ' ' :: (printedLine vs ++ rest) := rfl
    rw [e, tokens_cons_symbol (hrow v (by simp)), ih (fun u hu => hrow u (by simp [hu]))]
    rfl

/-- The tokens of a printed grid without whitespace symbols: its symbols in row-major
order, one token each. -/
theorem tokens_printed (b : Board) (hb : ∀ row ∈ b, ∀ v ∈ row, isspace v = false) :
    tokens (b.flatMap (fun row => printedLine row ++ ['\n'])) =
      b.flatten.map (fun v => [v]) := by
  induction b with
  | nil => rfl
  | cons row rows ih =>
    have hn : isspace '\n' = true := by decide
    simp only [List.flatMap_cons, List.flatten_cons, List.map_append, List.append_assoc,
      List.singleton_append]
    rw [tokens_printedLine row (hb row (by simp)), tokens_cons_space hn,
      ih (fun r hr => hb r (by simp [hr]))]

theorem flatten_length {b : Board} {R C : Nat} (hb : isRect b R C) :
    b.flatten.length = R * C := by
  obtain ⟨hl, hrow⟩ := hb
  subst hl
  induction b with
  | nil => simp
  | cons row rows ih =>
    rw [List.flatten_cons, List.length_append, ih (fun r hr => hrow r (by simp [hr])),
      hrow row (by simp), List.length_cons, Nat.succ_mul]
    omega

/-- The symbol number `row·C + col` of the rows laid end to end is the cell `(row, col)`. -/
theorem flatten_getElem? {b : Board} {R C : Nat} (hb : isRect b R C) {row col : Nat}
    (hc : col < C) : b.flatten[row * C + col]? = readCell b row col := by
  obtain ⟨hl, hrow⟩ := hb
  subst hl
  induction b generalizing row with
  | nil => simp [readCell]
  | cons r rs ih =>
    have hr : r.length = C := hrow r (by simp)
    cases row with
    | zero =>
      rw [List.flatten_cons, Nat.zero_mul, Nat.zero_add,
        List.getElem?_append_left (by omega)]
      simp [readCell]
    | succ k =>
      have e : (k + 1) * C + col = r.length + (k * C + col) := by
        rw [Nat.succ_mul, hr]; omega
      rw [List.flatten_cons, e, List.getElem?_append_right (by omega),
        Nat.add_sub_cancel_left, ih (fun x hx => hrow x (by simp [hx]))]
      simp [readCell]

/-! ## The two modes of `main` -/

/-- On grids without interior (`N < 3`) a generation step changes nothing. -/
theorem generations_small {N : Nat} {L : Board} (hN : N < 3) (hL : isRect L N N) (k : Nat) :
    generations N k ⟨L, L⟩ = some ⟨L, L⟩ := by
  have h1 : generation ⟨L, L⟩ N = some ⟨L, L⟩ := by
    obtain ⟨L', hg, hL', hc⟩ := generation_spec hL
    have : L' = L := board_ext hL' hL (fun r c _ _ => by
      rw [hc, if_neg (by unfold interior; omega)])
    rw [hg, this]
  induction k with
  | zero => rfl
  | succ k ih => simp only [generations, h1, ih]

/-- From an `N×N` live grid `L` and any `N×N` snapshot grid, `copyLiveBoard` and the loop of
`main` return with `iteration = 10000`, the grids of generation `10000` and the frames
`1, …, 10000` in `cout`. -/
theorem copy_then_loop {N : Nat} {L S : Board} (hL : isRect L N N) (hS : isRect S N N) :
    (match copyLiveBoard ⟨L, S⟩ N with
      | none => none
      | some s => generationLoop N 0 ⟨s, []⟩) =
      some (10000, ⟨⟨gridAfter N L 10000, gridAfter N L 10000⟩,
        (List.range' 1 10000).flatMap (frame N L)⟩) := by
  rw [copyLiveBoard_spec hL hS]
  have h := generationLoop_spec hL 9999 0 (by omega) []
  have e : gridAfter N L 0 = L := rfl
  rw [e, List.nil_append] at h
  exact h

theorem randomMode_spec {N : Nat} (rand : Nat → Nat) {b S : Board} (hb : isRect b N N)
    (hS : isRect S N N) :
    ∃ created seeded, createLiveBoard b N = some created ∧
      seedRandomly rand created N = some (seeded, (N - 2) * (N - 2)) ∧ isRect seeded N N ∧
      randomMode rand b S N =
        some (10000, ⟨⟨gridAfter N seeded 10000, gridAfter N seeded 10000⟩,
          (List.range' 1 10000).flatMap (frame N seeded)⟩) := by
  obtain ⟨created, hc, hR, -⟩ := createLiveBoard_spec hb
  obtain ⟨seeded, hs, hR', -⟩ := seedRandomly_spec rand hR
  refine ⟨created, seeded, hc, hs, hR', ?_⟩
  simp only [randomMode, hc, hs]
  exact copy_then_loop hR' hS

theorem fileMode_spec {N : Nat} (inf : IStream) {b S : Board} (hb : isRect b N N)
    (hS : isRect S N N) :
    ∃ seeded rest, seedFromFile b inf N = some (seeded, rest) ∧ isRect seeded N N ∧
      fileMode inf b S N =
        some (10000, ⟨⟨gridAfter N seeded 10000, gridAfter N seeded 10000⟩,
          (List.range' 1 10000).flatMap (frame N seeded)⟩) := by
  obtain ⟨seeded, rest, hs, hR⟩ := seedFromFile_total hb inf
  refine ⟨seeded, rest, hs, hR, ?_⟩
  simp only [fileMode, hs]
  exact copy_then_loop hR hS

/-! ## The program as `main` runs it -/

theorem readCell_none_of_col {b : Board} {R C r c : Nat} (hb : isRect b R C) (hc : C ≤ c) :
    readCell b r c = none := by
  cases h : readCell b r c with
  | none => rfl
  | some v =>
    have := (readCell_lt hb h).2
    omega

theorem seedCell_rect {row col R C : Nat} {s t : Board × IStream}
    (h : seedCell row col s = some t) (hs : isRect s.1 R C) : isRect t.1 R C := by
  unfold seedCell at h
  cases hv : readCell s.1 row col with
  | none => simp [hv] at h
  | some v =>
    simp only [hv] at h
    cases he : extractChar s.2 with
    | mk i o =>
      cases o with
      | none =>
        simp only [he, Option.some.injEq] at h
        subst h; exact hs
      | some x =>
        simp only [he] at h
        cases hw : writeCell s.1 row col x with
        | none => simp [hw] at h
        | some b' =>
          simp only [hw, Option.some.injEq] at h
          subst h
          exact writeCell_rect hw hs

/-- On a grid as `main` allocates it, `boardSize ≥ 1` rows of `boardSize-1` cells,
`seedFromFile` leaves the first row at column `boardSize-1`, whatever the stream holds. -/
theorem seedFromFile_allocBoard (N : Nat) (hN : 1 ≤ N) (inf : IStream) :
    seedFromFile (allocBoard N) inf N = none := by
  unfold seedFromFile
  refine forLoop_none (fun row => forLoop (seedCell row) 0 N)
    (fun _ (t : Board × IStream) => isRect t.1 N (N - 1)) N 0 (allocBoard N, inf) 0
    (le_refl _) (by omega) (allocBoard_rect N) (fun i t t' _ hi _ _ => by omega) ?_
  intro t ht
  refine forLoop_none (seedCell 0) (fun _ (u : Board × IStream) => isRect u.1 N (N - 1))
    N 0 t (N - 1) (by omega) (by omega) ht
    (fun i u u' _ _ hu he => seedCell_rect he hu) ?_
  intro u hu
  simp only [seedCell, readCell_none_of_col hu (le_refl _)]

/-- What `mainRandom` does for every size: it throws for `boardSize ≤ 0`, and for
`boardSize ≥ 1` it leaves a row of the grid in `createLiveBoard`, before the loop. -/
theorem mainRandom_eq (rand : Nat → Nat) (boardSize : Int) :
    mainRandom rand boardSize =
      if boardSize ≤ 0 then some Outcome.lengthError else none := by
  unfold mainRandom
  by_cases h : boardSize ≤ 0
  · simp only [h, if_true]
  · simp only [h, if_false]
    have h1 : 1 ≤ boardSize.toNat := by omega
    simp only [randomMode, createLiveBoard_allocBoard _ h1]

/-- What `mainFile` does for every stream and size: the early return on a failed stream,
the exception for `boardSize ≤ 0`, and otherwise an access outside a row of the grid in
`seedFromFile`, before the loop. -/
theorem mainFile_eq (inf : IStream) (boardSize : Int) :
    mainFile inf boardSize =
      if inf.failed then some Outcome.fileFailed
      else if boardSize ≤ 0 then some Outcome.lengthError else none := by
  unfold mainFile
  by_cases hf : inf.failed = true
  · simp only [hf, if_true]
  · by_cases h : boardSize ≤ 0
    · simp only [hf, h, if_true, if_false]
    · have h1 : 1 ≤ boardSize.toNat := by omega
      simp only [hf, h, if_false, fileMode, seedFromFile_allocBoard _ h1]

/-! ## The claims -/

/-- C1: one generation step (`tick` followed by `copySnapshotBoard`, started with
`snapshotBoard` equal to `liveBoard` on an `N×N` grid) returns and is the classic Life rule
applied synchronously: for every interior cell, with `n` the number of its eight Moore
neighbours holding exactly `'O'` in the grid before the step, the cell afterwards is `'O'`
if it was `'O'` with `n ∈ {2,3}` or `'.'` with `n = 3`, it is `'.'` if it was `'O'` with
`n < 2` or `n > 3`, and it keeps its value otherwise. -/
theorem generation_classic_rule (N : Nat) (L : Board) (hL : isRect L N N) :
    ∃ L', generation ⟨L, L⟩ N = some ⟨L', L'⟩ ∧ isRect L' N N ∧
      ∀ r c, interior N r c →
        ∃ v v', readCell L r c = some v ∧ readCell L' r c = some v' ∧
          ((v = 'O' ∧ (aliveNeighbours L r c = 2 ∨ aliveNeighbours L r c = 3)) ∨
              (v = '.' ∧ aliveNeighbours L r c = 3) → v' = 'O') ∧
          (v = 'O' ∧ (aliveNeighbours L r c < 2 ∨ 3 < aliveNeighbours L r c) → v' = '.') ∧
          ((v = '.' ∧ aliveNeighbours L r c ≠ 3) ∨ (v ≠ 'O' ∧ v ≠ '.') → v' = v) := by
  obtain ⟨L', hg, hL', hc⟩ := generation_spec hL
  refine ⟨L', hg, hL', fun r c hi => ?_⟩
  obtain ⟨v, hv⟩ := readCell_isSome (r := r) (c := c) hL
    (by unfold interior at hi; omega) (by unfold interior at hi; omega)
  refine ⟨v, _, hv, by rw [hc, if_pos hi, cellAt_eq hv], ?_, ?_, ?_⟩
  · rintro (⟨rfl, h⟩ | ⟨rfl, h⟩)
    · simp [tickValue, h]
    · simp [tickValue, h]
  · rintro ⟨rfl, h⟩
    have : ¬ (aliveNeighbours L r c = 2 ∨ aliveNeighbours L r c = 3) := by omega
    simp [tickValue, this]
  · rintro (⟨rfl, h⟩ | ⟨h1, h2⟩)
    · simp [tickValue, h]
    · simp [tickValue, h1, h2]

/-- The theorem `generation_classic_rule` at the `5×5` blinker grid. -/
theorem generation_classic_rule_witness :
    isRect blinker5 5 5 ∧
    ∃ L', generation ⟨blinker5, blinker5⟩ 5 = some ⟨L', L'⟩ ∧ isRect L' 5 5 ∧
      ∀ r c, interior 5 r c →
        ∃ v v', readCell blinker5 r c = some v ∧ readCell L' r c = some v' ∧
          ((v = 'O' ∧ (aliveNeighbours blinker5 r c = 2 ∨ aliveNeighbours blinker5 r c = 3)) ∨
              (v = '.' ∧ aliveNeighbours blinker5 r c = 3) → v' = 'O') ∧
          (v = 'O' ∧ (aliveNeighbours blinker5 r c < 2 ∨ 3 < aliveNeighbours blinker5 r c) →
            v' = '.') ∧
          ((v = '.' ∧ aliveNeighbours blinker5 r c ≠ 3) ∨ (v ≠ 'O' ∧ v ≠ '.') → v' = v) :=
  ⟨by decide, generation_classic_rule 5 blinker5 (by decide)⟩

/-- C3: double buffering.  Whenever `tick` returns, on any grids and any size, it has left
`liveBoard` unchanged and has changed `snapshotBoard` at interior positions only; and on
`N×N` grids it does return, and the value it leaves at an interior cell is computed from the
cell and the neighbour count of the unchanged generation-`G` grid `liveBoard`, never from a
value written earlier in the same `tick`. -/
theorem tick_double_buffering :
    (∀ (s s' : Boards) (N : Nat), tick s N = some s' →
      s'.liveBoard = s.liveBoard ∧
      ∀ r c, ¬ interior N r c →
        readCell s'.snapshotBoard r c = readCell s.snapshotBoard r c) ∧
    (∀ (L S : Board) (N : Nat), isRect L N N → isRect S N N →
      ∃ S', tick ⟨L, S⟩ N = some ⟨L, S'⟩ ∧ isRect S' N N ∧
        ∀ r c, interior N r c →
          readCell S' r c =
            some (tickValue (cellAt L r c) (aliveNeighbours L r c) (cellAt S r c))) := by
  refine ⟨fun s s' N h => tick_frame h, fun L S N hL hS => ?_⟩
  obtain ⟨S', ht, hS', hc⟩ := tick_spec hL hS
  exact ⟨S', ht, hS', fun r c hi => by rw [hc, if_pos hi]⟩

/-- The theorem `tick_double_buffering` at the `5×5` blinker grid, with the snapshot a copy
of it: `tick` returns the unchanged live grid and the next generation. -/
theorem tick_double_buffering_witness :
    tick ⟨blinker5, blinker5⟩ 5 = some ⟨blinker5, blinker5v⟩ ∧ isRect blinker5 5 5 ∧
    (blinker5 = blinker5 ∧
      ∀ r c, ¬ interior 5 r c → readCell blinker5v r c = readCell blinker5 r c) ∧
    ∃ S', tick ⟨blinker5, blinker5⟩ 5 = some ⟨blinker5, S'⟩ ∧ isRect S' 5 5 ∧
      ∀ r c, interior 5 r c →
        readCell S' r c =
          some (tickValue (cellAt blinker5 r c) (aliveNeighbours blinker5 r c)
            (cellAt blinker5 r c)) :=
  ⟨by decide, by decide,
    tick_double_buffering.1 ⟨blinker5, blinker5⟩ ⟨blinker5, blinker5v⟩ 5 (by decide),
    tick_double_buffering.2 blinker5 blinker5 5 (by decide) (by decide)⟩

/-- C2: border invariance.  For every size `N` (in particular `N ≥ 3`) and every `N×N`
grid, `createLiveBoard` returns a grid whose cells in row `0`, row `N-1`, column `0` and
column `N-1` are all `'l'`, with the interior left as it was; and from every `N×N` grid
`L1` with that border, whatever its interior, `copyLiveBoard` followed by any number `k` of
generation steps (`tick` then `copySnapshotBoard`) returns a grid whose border is still
`'l'`. -/
theorem border_invariance (N : Nat) (b S : Board) (hb : isRect b N N) (hS : isRect S N N) :
    ∃ L, createLiveBoard b N = some L ∧ isRect L N N ∧ wallBorder L N ∧
      (∀ r c, interior N r c → readCell L r c = readCell b r c) ∧
      ∀ L1 : Board, isRect L1 N N →
        (∀ r c, border N r c → readCell L1 r c = readCell L r c) →
        ∀ k, ∃ s0 sk, copyLiveBoard ⟨L1, S⟩ N = some s0 ∧
          generations N k s0 = some sk ∧ wallBorder sk.liveBoard N := by
  obtain ⟨L, hc, hL, hcell⟩ := createLiveBoard_spec hb
  have hB : ∀ r c, border N r c → readCell L r c = some 'l' := fun r c h => by
    rw [hcell, if_pos h]
  refine ⟨L, hc, hL, fun r _ c _ h => hB r c h, fun r c h => ?_, fun L1 hL1 h1 k => ?_⟩
  · rw [hcell, if_neg (by unfold border; unfold interior at h; omega)]
  · obtain ⟨L', hk, -, hB'⟩ := generations_border k hL1 (fun r c h => by rw [h1 r c h, hB r c h])
    exact ⟨_, _, copyLiveBoard_spec hL1 hS, hk, fun r _ c _ h => hB' r c h⟩

/-- The theorem `border_invariance` at size 5, on the grid holding `'x'` everywhere with
an arbitrary snapshot grid. -/
theorem border_invariance_witness :
    isRect (List.replicate 5 (List.replicate 5 'x')) 5 5 ∧ isRect blinker5 5 5 ∧
    ∃ L, createLiveBoard (List.replicate 5 (List.replicate 5 'x')) 5 = some L ∧
      isRect L 5 5 ∧ wallBorder L 5 ∧
      (∀ r c, interior 5 r c →
        readCell L r c = readCell (List.replicate 5 (List.replicate 5 'x')) r c) ∧
      ∀ L1 : Board, isRect L1 5 5 →
        (∀ r c, border 5 r c → readCell L1 r c = readCell L r c) →
        ∀ k, ∃ s0 sk, copyLiveBoard ⟨L1, blinker5⟩ 5 = some s0 ∧
          generations 5 k s0 = some sk ∧ wallBorder sk.liveBoard 5 :=
  ⟨by decide, by decide,
    border_invariance 5 (List.replicate 5 (List.replicate 5 'x')) blinker5
      (by decide) (by decide)⟩

/-- C4 (the code departs from it): `main` allocates `boardSize` rows of `boardSize-1`
cells, not `boardSize`.  At `boardSize = 3` the grid is `3×2`, the cell `[0][2]` does not
exist, and both `createLiveBoard` and `seedFromFile` (here on nine tokens) index outside
the allocated row. -/
theorem allocBoard_three_out_of_bounds :
    isRect (allocBoard 3) 3 2 ∧ ¬ isRect (allocBoard 3) 3 3 ∧
    readCell (allocBoard 3) 0 2 = none ∧
    createLiveBoard (allocBoard 3) 3 = none ∧
    seedFromFile (allocBoard 3) ⟨"l l l l O l l l l".toList, false⟩ 3 = none := by
  decide

/-- C6: glider.  On the `10×10` grid with an `'l'` border whose interior is `'.'` except
for `'O'` at `(1,2),(2,3),(3,1),(3,2),(3,3)`, four generation steps return the grid with an
`'l'` border whose interior is `'.'` except for `'O'` at `(2,3),(3,4),(4,2),(4,3),(4,4)`:
the same shape translated by `(1,1)`. -/
theorem glider_four_steps (b : Board)
    (hb : hasPattern b 10 [(1, 2), (2, 3), (3, 1), (3, 2), (3, 3)]) :
    ∃ b', generations 10 4 ⟨b, b⟩ = some ⟨b', b'⟩ ∧
      hasPattern b' 10 [(2, 3), (3, 4), (4, 2), (4, 3), (4, 4)] := by
  have e : b = glider10 := hasPattern_unique hb (by decide)
  subst e
  exact ⟨glider10moved, by decide, by decide⟩

/-- The theorem `glider_four_steps` at the grid `glider10`. -/
theorem glider_four_steps_witness :
    hasPattern glider10 10 [(1, 2), (2, 3), (3, 1), (3, 2), (3, 3)] ∧
    ∃ b', generations 10 4 ⟨glider10, glider10⟩ = some ⟨b', b'⟩ ∧
      hasPattern b' 10 [(2, 3), (3, 4), (4, 2), (4, 3), (4, 4)] :=
  ⟨by decide, glider_four_steps glider10 (by decide)⟩

/-- C8 as stated fails: on the `5×5` grid with a wall border and a dead interior
`printLiveBoard` writes five lines, but the lines are not the five symbols separated by
single spaces: the first one is `"l l l l l "`, with a space after the last symbol. -/
theorem printLiveBoard_lines_not_spaced :
    ∃ d, printLiveBoard ⟨dead5, []⟩ 5 = some d ∧
      textLines d.cout ≠ dead5.map spacedLine ∧
      (textLines d.cout)[0]? = some "l l l l l ".toList ∧
      (dead5.map spacedLine)[0]? = some "l l l l l".toList :=
  ⟨_, rfl, by decide, by decide, by decide⟩

/-- C8, amended: for every `N×N` grid `printLiveBoard` returns without modifying the grid,
and the text it writes is, row after row, every symbol of the row in column order followed
by a single space, then a newline; when no cell is a newline these are exactly `N` lines in
row order, line `r` being the `N` symbols of row `r`, each followed by a space. -/
theorem printLiveBoard_output (N : Nat) (b : Board) (hb : isRect b N N) (out : List Char) :
    ∃ d, printLiveBoard ⟨b, out⟩ N = some d ∧ d.liveBoard = b ∧
      d.cout = out ++ b.flatMap (fun row => printedLine row ++ ['\n']) ∧
      ((∀ row ∈ b, '\n' ∉ row) →
        textLines (b.flatMap (fun row => printedLine row ++ ['\n'])) = b.map printedLine ∧
        (b.map printedLine).length = N ∧
        ∀ row ∈ b.map printedLine, row.length = 2 * N) := by
  refine ⟨_, printLiveBoard_spec hb out, rfl, rfl, fun hnl => ⟨?_, ?_, ?_⟩⟩
  · exact textLines_flatMap b printedLine (fun row hr => not_mem_printedLine (hnl row hr))
  · simpa using hb.1
  · intro row hr
    obtain ⟨r, hr', rfl⟩ := List.mem_map.mp hr
    rw [printedLine_length, hb.2 r hr']

/-- The theorem `printLiveBoard_output` at the `5×5` grid with a wall border and a dead
interior, printed to an empty `cout`. -/
theorem printLiveBoard_output_witness :
    isRect dead5 5 5 ∧
    ∃ d, printLiveBoard ⟨dead5, []⟩ 5 = some d ∧ d.liveBoard = dead5 ∧
      d.cout = [] ++ dead5.flatMap (fun row => printedLine row ++ ['\n']) ∧
      ((∀ row ∈ dead5, '\n' ∉ row) →
        textLines (dead5.flatMap (fun row => printedLine row ++ ['\n'])) =
          dead5.map printedLine ∧
        (dead5.map printedLine).length = 5 ∧
        ∀ row ∈ dead5.map printedLine, row.length = 2 * 5) :=
  ⟨by decide, printLiveBoard_output 5 dead5 (by decide) []⟩

/-- C9: on `N×N` grids `stability` returns; it returns `true` if and only if the two grids
hold the same symbol at some interior position, and `false` exactly when they differ at
every interior position.  Hence it returns `false` whenever `N < 3`, on any grids, and it
returns `true` for the two unequal `4×4` grids `stableA` and `stableB`, which agree at the
interior cell `(2,2)` and differ at the other three. -/
theorem stability_any_match :
    (∀ (N : Nat) (p q : Board), isRect p N N → isRect q N N →
      (stability p q N = some true ↔
        ∃ r c, interior N r c ∧ readCell p r c = readCell q r c) ∧
      (stability p q N = some false ↔
        ∀ r c, interior N r c → readCell p r c ≠ readCell q r c)) ∧
    (∀ (N : Nat) (p q : Board), N < 3 → stability p q N = some false) ∧
    (isRect stableA 4 4 ∧ isRect stableB 4 4 ∧ stableA ≠ stableB ∧
      readCell stableA 2 2 = readCell stableB 2 2 ∧
      readCell stableA 1 1 ≠ readCell stableB 1 1 ∧
      readCell stableA 1 2 ≠ readCell stableB 1 2 ∧
      readCell stableA 2 1 ≠ readCell stableB 2 1 ∧
      stability stableA stableB 4 = some true) := by
  refine ⟨fun N p q hp hq => ?_, fun N p q hN => ?_, by decide⟩
  · have key : ∃ b, stability p q N = some b ∧
        (b = true ↔ ∃ r c, interior N r c ∧ readCell p r c = readCell q r c) := by
      by_cases hN : N < 3
      · refine ⟨false, ?_, ?_⟩
        · have h0 : N - 1 - 1 = 0 := by omega
          simp [stability, h0, stabilityRows]
        · simp only [Bool.false_eq_true, false_iff, not_exists, not_and]
          intro r c hi
          unfold interior at hi
          omega
      · obtain ⟨b, hb, hiff⟩ := stabilityRows_spec hp hq (N - 1 - 1) 1 (by omega)
        refine ⟨b, hb, ?_⟩
        rw [hiff]
        constructor
        · rintro ⟨r, c, h1, h2, h3, h4, h5⟩
          exact ⟨r, c, ⟨h1, by omega, h3, h4⟩, h5⟩
        · rintro ⟨r, c, ⟨h1, h2, h3, h4⟩, h5⟩
          exact ⟨r, c, h1, by omega, h3, h4, h5⟩
    obtain ⟨b, hb, hiff⟩ := key
    rw [hb]
    cases b with
    | true =>
      have h := hiff.mp rfl
      refine ⟨⟨fun _ => h, fun _ => rfl⟩, ⟨fun e => (by cases e), fun hall => ?_⟩⟩
      obtain ⟨r, c, hi, he⟩ := h
      exact absurd he (hall r c hi)
    | false =>
      have h : ¬ ∃ r c, interior N r c ∧ readCell p r c = readCell q r c := fun h => by
        have : false = true := hiff.mpr h
        cases this
      refine ⟨⟨fun e => (by cases e), fun h' => absurd h' h⟩, ⟨fun _ r c hi he => h ⟨r, c, hi, he⟩,
        fun _ => rfl⟩⟩
  · have h0 : N - 1 - 1 = 0 := by omega
    simp [stability, h0, stabilityRows]

/-- The theorem `stability_any_match` at the grids `stableA` and `stableB`, and at size 2
on empty grids. -/
theorem stability_any_match_witness :
    isRect stableA 4 4 ∧ isRect stableB 4 4 ∧
    ((stability stableA stableB 4 = some true ↔
        ∃ r c, interior 4 r c ∧ readCell stableA r c = readCell stableB r c) ∧
      (stability stableA stableB 4 = some false ↔
        ∀ r c, interior 4 r c → readCell stableA r c ≠ readCell stableB r c)) ∧
    stability [] [] 2 = some false :=
  ⟨by decide, by decide, stability_any_match.1 4 stableA stableB (by decide) (by decide),
    stability_any_match.2.1 2 [] [] (by decide)⟩

/-- C10: on an `N×N` grid and a good source whose whitespace-delimited tokens begin with
`N·N` single-character tokens `ts` (followed by any further tokens `more`),
`seedFromFile` returns, has consumed exactly these `N·N` tokens (the stream is still good
and its remaining tokens are `more`), and has set every cell `[row][col]`, border included,
to the token `ts[row·N+col]` as it stands. -/
theorem seedFromFile_row_major (N : Nat) (b : Board) (hb : isRect b N N) (src : List Char)
    (ts : List Char) (more : List (List Char)) (hlen : ts.length = N * N)
    (htok : tokens src = ts.map (fun t => [t]) ++ more) :
    ∃ b' rest, seedFromFile b ⟨src, false⟩ N = some (b', ⟨rest, false⟩) ∧ isRect b' N N ∧
      tokens rest = more ∧
      ∀ row col, row < N → col < N → readCell b' row col = ts[row * N + col]? :=
  seedFromFile_spec hb src ts more hlen htok

/-- The theorem `seedFromFile_row_major` on a `2×2` grid and a source of five tokens, one
of them outside the alphabet of the game. -/
theorem seedFromFile_row_major_witness :
    isRect [['x', 'x'], ['x', 'x']] 2 2 ∧ ['l', 'O', '.', '#'].length = 2 * 2 ∧
    tokens "l O\n. #  l".toList = ['l', 'O', '.', '#'].map (fun t => [t]) ++ [['l']] ∧
    ∃ b' rest, seedFromFile [['x', 'x'], ['x', 'x']] ⟨"l O\n. #  l".toList, false⟩ 2 =
        some (b', ⟨rest, false⟩) ∧ isRect b' 2 2 ∧
      tokens rest = [['l']] ∧
      ∀ row col, row < 2 → col < 2 →
        readCell b' row col = ['l', 'O', '.', '#'][row * 2 + col]? :=
  ⟨by decide, by decide, by decide,
    seedFromFile_row_major 2 [['x', 'x'], ['x', 'x']] (by decide) "l O\n. #  l".toList
      ['l', 'O', '.', '#'] [['l']] (by decide) (by decide)⟩

/-- C5: blinker.  On every `N×N` grid with an `'l'` border whose interior is `'.'` except
for `'O'` at `(r,c-1),(r,c),(r,c+1)`, these three cells and `(r-1,c)`, `(r+1,c)` being
interior, one generation step returns the grid whose interior is `'.'` except for `'O'` at
`(r-1,c),(r,c),(r+1,c)`, a second step returns the original grid, and the grid after one
step differs from the original: the period is exactly 2. -/
theorem blinker_period_two (N r c : Nat) (b : Board)
    (hin : ∀ p ∈ [(r, c - 1), (r, c), (r, c + 1), (r - 1, c), (r + 1, c)], interior N p.1 p.2)
    (hb : hasPattern b N [(r, c - 1), (r, c), (r, c + 1)]) :
    ∃ b1, generation ⟨b, b⟩ N = some ⟨b1, b1⟩ ∧
      hasPattern b1 N [(r - 1, c), (r, c), (r + 1, c)] ∧
      generation ⟨b1, b1⟩ N = some ⟨b, b⟩ ∧ b1 ≠ b := by
  have hl : interior N r (c - 1) := hin (r, c - 1) (by simp)
  have hm : interior N r c := hin (r, c) (by simp)
  have hr : interior N r (c + 1) := hin (r, c + 1) (by simp)
  have hu : interior N (r - 1) c := hin (r - 1, c) (by simp)
  have hd : interior N (r + 1) c := hin (r + 1, c) (by simp)
  have hr2 : 2 ≤ r := by unfold interior at hu; omega
  have hc2 : 2 ≤ c := by unfold interior at hl; omega
  obtain ⟨b1, hg1, hb1⟩ := pattern_step (B := [(r - 1, c), (r, c), (r + 1, c)]) hb
    (by simp; omega)
    (by
      intro p hp
      simp only [List.mem_cons, List.mem_singleton, List.not_mem_nil, or_false] at hp
      rcases hp with rfl | rfl | rfl <;> assumption)
    (fun r' c' _ => blinker_rule_h r c r' c' (by omega) hc2)
  obtain ⟨b2, hg2, hb2⟩ := pattern_step (B := [(r, c - 1), (r, c), (r, c + 1)]) hb1
    (by simp; omega)
    (by
      intro p hp
      simp only [List.mem_cons, List.mem_singleton, List.not_mem_nil, or_false] at hp
      rcases hp with rfl | rfl | rfl <;> assumption)
    (fun r' c' _ => blinker_rule_v r c r' c' hr2 (by omega))
  have e : b2 = b := hasPattern_unique hb2 hb
  subst e
  refine ⟨b1, hg1, hb1, hg2, fun e => ?_⟩
  subst e
  have h1 := hb1.2.2 (r - 1) (by unfold interior at hu; omega) c
    (by unfold interior at hu; omega) hu
  have h2 := hb.2.2 (r - 1) (by unfold interior at hu; omega) c
    (by unfold interior at hu; omega) hu
  rw [h1] at h2
  have m1 : (r - 1, c) ∈ [(r - 1, c), (r, c), (r + 1, c)] := by simp
  have m2 : (r - 1, c) ∉ [(r, c - 1), (r, c), (r, c + 1)] := by
    simp
    omega
  rw [if_pos m1, if_neg m2] at h2
  exact absurd h2 (by decide)

/-- The theorem `blinker_period_two` at the `5×5` blinker grid, `r = c = 2`. -/
theorem blinker_period_two_witness :
    (∀ p ∈ [(2, 2 - 1), (2, 2), (2, 2 + 1), (2 - 1, 2), (2 + 1, 2)], interior 5 p.1 p.2) ∧
    hasPattern blinker5 5 [(2, 2 - 1), (2, 2), (2, 2 + 1)] ∧
    ∃ b1, generation ⟨blinker5, blinker5⟩ 5 = some ⟨b1, b1⟩ ∧
      hasPattern b1 5 [(2 - 1, 2), (2, 2), (2 + 1, 2)] ∧
      generation ⟨b1, b1⟩ 5 = some ⟨blinker5, blinker5⟩ ∧ b1 ≠ blinker5 :=
  ⟨by decide, by decide, blinker_period_two 5 2 2 blinker5 (by decide) (by decide)⟩

/-- C7: still life.  On every `N×N` grid (so `N ≥ 4`) with an `'l'` border whose interior
is `'.'` except for the `2×2` block of `'O'` at `(r,c),(r,c+1),(r+1,c),(r+1,c+1)`, lying
anywhere in the interior, `k` generation steps return the original grid, for every `k`. -/
theorem block_still_life (N r c : Nat) (b : Board)
    (hin : ∀ p ∈ [(r, c), (r, c + 1), (r + 1, c), (r + 1, c + 1)], interior N p.1 p.2)
    (hb : hasPattern b N [(r, c), (r, c + 1), (r + 1, c), (r + 1, c + 1)]) (k : Nat) :
    4 ≤ N ∧ generations N k ⟨b, b⟩ = some ⟨b, b⟩ := by
  have h0 : interior N r c := hin (r, c) (by simp)
  have h1 : interior N (r + 1) (c + 1) := hin (r + 1, c + 1) (by simp)
  refine ⟨by unfold interior at h0 h1; omega, ?_⟩
  obtain ⟨b1, hg1, hb1⟩ := pattern_step
    (B := [(r, c), (r, c + 1), (r + 1, c), (r + 1, c + 1)]) hb
    (by simp)
    hin (fun r' c' _ => block_rule r c r' c')
  have e : b1 = b := hasPattern_unique hb1 hb
  subst e
  induction k with
  | zero => rfl
  | succ k ih => simp only [generations, hg1, ih]

/-- The theorem `block_still_life` at the `6×6` grid with the block in the corner of the
interior, next to the wall, after 1000 generation steps. -/
theorem block_still_life_witness :
    (∀ p ∈ [(1, 1), (1, 1 + 1), (1 + 1, 1), (1 + 1, 1 + 1)], interior 6 p.1 p.2) ∧
    hasPattern block6 6 [(1, 1), (1, 1 + 1), (1 + 1, 1), (1 + 1, 1 + 1)] ∧
    4 ≤ 6 ∧ generations 6 1000 ⟨block6, block6⟩ = some ⟨block6, block6⟩ :=
  ⟨by decide, by decide, block_still_life 6 1 1 block6 (by decide) (by decide) 1000⟩

/-- C11 as stated fails: on a `3×3` grid that holds `'l'` everywhere, seeding from a file
of nine tokens, eight `'.'` around one `'O'`, leaves `'.'` in the border cells, and the
border is still `'.'` after `copyLiveBoard` and a generation step. -/
theorem fileMode_border_not_wall :
    tokens ". . .\n. O .\n. . .\n".toList = open3.flatten.map (fun t => [t]) ∧
    wallBorder walls3 3 ∧
    seedFromFile walls3 ⟨". . .\n. O .\n. . .\n".toList, false⟩ 3 =
      some (open3, ⟨['\n'], false⟩) ∧
    readCell open3 0 0 = some '.' ∧ ¬ wallBorder open3 3 ∧
    copyLiveBoard ⟨open3, walls3⟩ 3 = some ⟨open3, open3⟩ ∧
    generations 3 1 ⟨open3, open3⟩ = some ⟨open3next, open3next⟩ ∧
    readCell open3next 0 0 = some '.' ∧ ¬ wallBorder open3next 3 := by
  decide

/-- C11, amended: in file mode `main` does not call `createLiveBoard`; on `N×N` grids and
a good file whose tokens begin with `N·N` single characters `ts`, after seeding and after
`copyLiveBoard` and any number `k` of generation steps every border cell `(r, c)` holds the
token `ts[r·N+c]` of the file; so the border is `'l'` after seeding and after every
generation step whenever the border tokens of the file are all `'l'`. -/
theorem fileMode_border_from_file (N : Nat) (b S : Board) (hb : isRect b N N)
    (hS : isRect S N N) (src : List Char) (ts : List Char) (more : List (List Char))
    (hlen : ts.length = N * N) (htok : tokens src = ts.map (fun t => [t]) ++ more)
    (k : Nat) :
    ∃ seeded rest s0 sk, seedFromFile b ⟨src, false⟩ N = some (seeded, rest) ∧
      copyLiveBoard ⟨seeded, S⟩ N = some s0 ∧ generations N k s0 = some sk ∧
      (∀ r c, border N r c →
        readCell seeded r c = ts[r * N + c]? ∧ readCell sk.liveBoard r c = ts[r * N + c]?) ∧
      ((∀ r c, border N r c → ts[r * N + c]? = some 'l') →
        wallBorder seeded N ∧ wallBorder sk.liveBoard N) := by
  obtain ⟨seeded, rest, hs, hR, -, hC⟩ := seedFromFile_spec hb src ts more hlen htok
  obtain ⟨G, hg, -, hK⟩ := generations_keep k hR
  have hB : ∀ r c, border N r c →
      readCell seeded r c = ts[r * N + c]? ∧ readCell G r c = ts[r * N + c]? := by
    intro r c hbd
    have h1 := hC r c hbd.1 hbd.2.1
    refine ⟨h1, ?_⟩
    rw [hK r c (by unfold interior; unfold border at hbd; omega), h1]
  refine ⟨seeded, _, _, _, hs, copyLiveBoard_spec hR hS, hg, hB, fun hw => ?_⟩
  exact ⟨fun r _ c _ hbd => by rw [(hB r c hbd).1, hw r c hbd],
    fun r _ c _ hbd => by rw [(hB r c hbd).2, hw r c hbd]⟩

/-- The theorem `fileMode_border_from_file` on `3×3` grids and a file of nine tokens, after
seven generation steps. -/
theorem fileMode_border_from_file_witness :
    isRect open3 3 3 ∧ isRect walls3 3 3 ∧
    ("lllllOlll".toList).length = 3 * 3 ∧
    tokens "l l l\nl l O\nl l l\n".toList = "lllllOlll".toList.map (fun t => [t]) ++ [] ∧
    ∃ seeded rest s0 sk,
      seedFromFile open3 ⟨"l l l\nl l O\nl l l\n".toList, false⟩ 3 = some (seeded, rest) ∧
      copyLiveBoard ⟨seeded, walls3⟩ 3 = some s0 ∧ generations 3 7 s0 = some sk ∧
      (∀ r c, border 3 r c →
        readCell seeded r c = "lllllOlll".toList[r * 3 + c]? ∧
        readCell sk.liveBoard r c = "lllllOlll".toList[r * 3 + c]?) ∧
      ((∀ r c, border 3 r c → "lllllOlll".toList[r * 3 + c]? = some 'l') →
        wallBorder seeded 3 ∧ wallBorder sk.liveBoard 3) :=
  ⟨by decide, by decide, by decide, by decide,
    fileMode_border_from_file 3 open3 walls3 (by decide) (by decide)
      "l l l\nl l O\nl l l\n".toList "lllllOlll".toList [] (by decide) (by decide) 7⟩

/-- C12 as stated fails: on a `2×2` grid holding `'x'` and a file of two tokens,
`seedFromFile` returns normally; the grid it returns has the two tokens in its first row
and the old `'x'` in its second row, and only the stream is marked failed. -/
theorem seedFromFile_short_file_returns :
    tokens "l O".toList = [['l'], ['O']] ∧ (tokens "l O".toList).length < 2 * 2 ∧
    seedFromFile [['x', 'x'], ['x', 'x']] ⟨"l O".toList, false⟩ 2 =
      some ([['l', 'O'], ['x', 'x']], ⟨[], true⟩) := by
  decide

/-- C12, amended: on an `N×N` grid and a good file holding fewer than `N·N` tokens, all of
one character, `seedFromFile` does not fail: it returns an `N×N` grid and leaves the stream
failed; the cells before the first missing token, in row-major order, hold the tokens of
the file, and every other cell is left at its previous value. -/
theorem seedFromFile_too_few_tokens (N : Nat) (b : Board) (hb : isRect b N N)
    (src : List Char) (ts : List Char) (hlen : ts.length < N * N)
    (htok : tokens src = ts.map (fun t => [t])) :
    ∃ b' rest, seedFromFile b ⟨src, false⟩ N = some (b', ⟨rest, true⟩) ∧ isRect b' N N ∧
      ∀ row col, row < N → col < N →
        readCell b' row col =
          if row * N + col < ts.length then ts[row * N + col]? else readCell b row col :=
  seedFromFile_short hb src ts hlen htok

/-- The theorem `seedFromFile_too_few_tokens` on a `2×2` grid and a file of two tokens. -/
theorem seedFromFile_too_few_tokens_witness :
    isRect [['x', 'x'], ['x', 'x']] 2 2 ∧ ['l', 'O'].length < 2 * 2 ∧
    tokens "l O".toList = ['l', 'O'].map (fun t => [t]) ∧
    ∃ b' rest, seedFromFile [['x', 'x'], ['x', 'x']] ⟨"l O".toList, false⟩ 2 =
        some (b', ⟨rest, true⟩) ∧ isRect b' 2 2 ∧
      ∀ row col, row < 2 → col < 2 →
        readCell b' row col =
          if row * 2 + col < ['l', 'O'].length then ['l', 'O'][row * 2 + col]?
          else readCell [['x', 'x'], ['x', 'x']] row col :=
  ⟨by decide, by decide, by decide,
    seedFromFile_too_few_tokens 2 [['x', 'x'], ['x', 'x']] (by decide) "l O".toList
      ['l', 'O'] (by decide) (by decide)⟩

/-- C13 as stated fails: with size 2 (and 1, and 0) `createLiveBoard` on a grid of that
size returns a grid, all `'l'`, and the random mode of `main` then runs its `10000`
generation steps on it. -/
theorem createLiveBoard_small_size_succeeds :
    createLiveBoard [['x', 'x'], ['x', 'x']] 2 = some [['l', 'l'], ['l', 'l']] ∧
    createLiveBoard [['x']] 1 = some [['l']] ∧ createLiveBoard [] 0 = some [] ∧
    generations 2 3 ⟨[['l', 'l'], ['l', 'l']], [['l', 'l'], ['l', 'l']]⟩ =
      some ⟨[['l', 'l'], ['l', 'l']], [['l', 'l'], ['l', 'l']]⟩ ∧
    ∃ r, randomMode (fun k => k) [['x', 'x'], ['x', 'x']] [['x', 'x'], ['x', 'x']] 2 = some r ∧
      r.1 = 10000 := by
  refine ⟨by decide, by decide, by decide, by decide, ?_⟩
  obtain ⟨_, _, -, -, -, h⟩ := randomMode_spec (N := 2) (fun k => k)
    (show isRect [['x', 'x'], ['x', 'x']] 2 2 by decide)
    (show isRect [['x', 'x'], ['x', 'x']] 2 2 by decide)
  exact ⟨_, h, rfl⟩

/-- C13, amended: there is no size check.  On an `N×N` grid `createLiveBoard` returns for
every size `N`, so for every `N ≥ 3`, an `N×N` grid with an `'l'` border; for `N < 3` every
cell of it is `'l'`, and generation steps run on it and leave it unchanged. -/
theorem createLiveBoard_any_size (N : Nat) (b : Board) (hb : isRect b N N) :
    ∃ L, createLiveBoard b N = some L ∧ isRect L N N ∧ wallBorder L N ∧
      (N < 3 → (∀ r c, r < N → c < N → readCell L r c = some 'l') ∧
        ∀ k, generations N k ⟨L, L⟩ = some ⟨L, L⟩) := by
  obtain ⟨L, hc, hL, hcell⟩ := createLiveBoard_spec hb
  refine ⟨L, hc, hL, fun r _ c _ h => by rw [hcell, if_pos h], fun hN => ⟨fun r c hr hc' => ?_,
    fun k => generations_small hN hL k⟩⟩
  rw [hcell, if_pos (by unfold border; omega)]

/-- The theorem `createLiveBoard_any_size` at size 2. -/
theorem createLiveBoard_any_size_witness :
    isRect [['x', 'x'], ['x', 'x']] 2 2 ∧
    ∃ L, createLiveBoard [['x', 'x'], ['x', 'x']] 2 = some L ∧ isRect L 2 2 ∧ wallBorder L 2 ∧
      (2 < 3 → (∀ r c, r < 2 → c < 2 → readCell L r c = some 'l') ∧
        ∀ k, generations 2 k ⟨L, L⟩ = some ⟨L, L⟩) :=
  ⟨by decide, createLiveBoard_any_size 2 [['x', 'x'], ['x', 'x']] (by decide)⟩

/-- C14: with `rand k` the value of the `k`-th call of `rand()`, on an `N×N` grid
`seedRandomly` returns after `(N-2)·(N-2)` calls; the interior cell `(r, c)`, number
`k = (r-1)·(N-2) + (c-1)` in row-major order, holds `'.'` when `rand k % 2 = 0` and `'O'`
when `rand k % 2 = 1`; every cell outside the interior is unchanged; and after
`createLiveBoard` then `seedRandomly` every interior cell is `'O'` or `'.'` and every border
cell is `'l'`. -/
theorem seedRandomly_bits (N : Nat) (rand : Nat → Nat) (b : Board) (hb : isRect b N N) :
    (∃ b', seedRandomly rand b N = some (b', (N - 2) * (N - 2)) ∧ isRect b' N N ∧
      (∀ r c, interior N r c →
        (rand ((r - 1) * (N - 2) + (c - 1)) % 2 = 0 → readCell b' r c = some '.') ∧
        (rand ((r - 1) * (N - 2) + (c - 1)) % 2 = 1 → readCell b' r c = some 'O')) ∧
      (∀ r c, ¬ interior N r c → readCell b' r c = readCell b r c)) ∧
    (∃ created seeded n, createLiveBoard b N = some created ∧
      seedRandomly rand created N = some (seeded, n) ∧ wellFormed seeded N) := by
  constructor
  · obtain ⟨b', hs, hR, hC⟩ := seedRandomly_spec rand hb
    refine ⟨b', hs, hR, fun r c hi => ⟨fun h0 => ?_, fun h1 => ?_⟩, fun r c hn => ?_⟩
    · rw [hC, if_pos hi, if_pos h0]
    · rw [hC, if_pos hi, if_neg (by omega)]
    · rw [hC, if_neg hn]
  · obtain ⟨created, hc, hR, hcell⟩ := createLiveBoard_spec hb
    obtain ⟨seeded, hs, hR', hC⟩ := seedRandomly_spec rand hR
    refine ⟨created, seeded, _, hc, hs, hR', fun r _ c _ hbd => ?_, fun r _ c _ hi => ?_⟩
    · rw [hC, if_neg (by unfold interior; unfold border at hbd; omega), hcell, if_pos hbd]
    · rw [hC, if_pos hi]
      by_cases h0 : rand ((r - 1) * (N - 2) + (c - 1)) % 2 = 0
      · right; rw [if_pos h0]
      · left; rw [if_neg h0]

/-- The theorem `seedRandomly_bits` on the `5×5` blinker grid with `rand k = 7·k + 1`. -/
theorem seedRandomly_bits_witness :
    isRect blinker5 5 5 ∧
    (∃ b', seedRandomly (fun k => 7 * k + 1) blinker5 5 = some (b', (5 - 2) * (5 - 2)) ∧
      isRect b' 5 5 ∧
      (∀ r c, interior 5 r c →
        ((fun k => 7 * k + 1) ((r - 1) * (5 - 2) + (c - 1)) % 2 = 0 →
          readCell b' r c = some '.') ∧
        ((fun k => 7 * k + 1) ((r - 1) * (5 - 2) + (c - 1)) % 2 = 1 →
          readCell b' r c = some 'O')) ∧
      (∀ r c, ¬ interior 5 r c → readCell b' r c = readCell blinker5 r c)) ∧
    (∃ created seeded n, createLiveBoard blinker5 5 = some created ∧
      seedRandomly (fun k => 7 * k + 1) created 5 = some (seeded, n) ∧ wellFormed seeded 5) :=
  ⟨by decide, seedRandomly_bits 5 (fun k => 7 * k + 1) blinker5 (by decide)⟩

/-- C15: on `N×N` grids `copyLiveBoard` returns with `snapshotBoard` equal to `liveBoard`
and `liveBoard` unchanged, `copySnapshotBoard` returns with `liveBoard` equal to
`snapshotBoard` and `snapshotBoard` unchanged, `copyLiveBoard` followed by
`copySnapshotBoard` leaves `liveBoard` unchanged, and after the copy an assignment to a
cell of one grid leaves the other grid as it was. -/
theorem copy_is_deep (N : Nat) (L S : Board) (hL : isRect L N N) (hS : isRect S N N) :
    copyLiveBoard ⟨L, S⟩ N = some ⟨L, L⟩ ∧ copySnapshotBoard ⟨L, S⟩ N = some ⟨S, S⟩ ∧
    (∃ s, copyLiveBoard ⟨L, S⟩ N = some s ∧ copySnapshotBoard s N = some ⟨L, L⟩) ∧
    (∀ r c v, r < N → c < N →
      ∃ s', writeLive ⟨L, L⟩ r c v = some s' ∧ readCell s'.liveBoard r c = some v ∧
        s'.snapshotBoard = L) ∧
    (∀ r c v, r < N → c < N →
      ∃ s', writeSnapshot ⟨L, L⟩ r c v = some s' ∧ readCell s'.snapshotBoard r c = some v ∧
        s'.liveBoard = L) := by
  refine ⟨copyLiveBoard_spec hL hS, copySnapshotBoard_spec hL hS,
    ⟨_, copyLiveBoard_spec hL hS, copySnapshotBoard_spec hL hL⟩, fun r c v hr hc => ?_,
    fun r c v hr hc => ?_⟩
  · obtain ⟨L', hw⟩ := writeCell_isSome v hL hr hc
    exact ⟨_, writeLive_eq hw, by simp [readCell_writeCell hw], rfl⟩
  · obtain ⟨L', hw⟩ := writeCell_isSome v hL hr hc
    exact ⟨_, writeSnapshot_eq hw, by simp [readCell_writeCell hw], rfl⟩

/-- The theorem `copy_is_deep` on the `5×5` blinker grid and the all-dead grid. -/
theorem copy_is_deep_witness :
    isRect blinker5 5 5 ∧ isRect dead5 5 5 ∧
    copyLiveBoard ⟨blinker5, dead5⟩ 5 = some ⟨blinker5, blinker5⟩ ∧
    copySnapshotBoard ⟨blinker5, dead5⟩ 5 = some ⟨dead5, dead5⟩ ∧
    (∃ s, copyLiveBoard ⟨blinker5, dead5⟩ 5 = some s ∧
      copySnapshotBoard s 5 = some ⟨blinker5, blinker5⟩) ∧
    (∀ r c v, r < 5 → c < 5 →
      ∃ s', writeLive ⟨blinker5, blinker5⟩ r c v = some s' ∧
        readCell s'.liveBoard r c = some v ∧ s'.snapshotBoard = blinker5) ∧
    (∀ r c v, r < 5 → c < 5 →
      ∃ s', writeSnapshot ⟨blinker5, blinker5⟩ r c v = some s' ∧
        readCell s'.snapshotBoard r c = some v ∧ s'.liveBoard = blinker5) :=
  ⟨by decide, by decide, copy_is_deep 5 blinker5 dead5 (by decide) (by decide)⟩

/-- C16: the generation step is a function of `liveBoard`, `snapshotBoard` and the size
alone: two runs of `tick` then `copySnapshotBoard` from equal grids and equal sizes have
the same outcome; and on `N×N` grids that agree cell for cell both runs return, with one
and the same pair of grids. -/
theorem generation_deterministic :
    (∀ (s1 s2 : Boards) (N1 N2 : Nat), s1.liveBoard = s2.liveBoard →
      s1.snapshotBoard = s2.snapshotBoard → N1 = N2 → generation s1 N1 = generation s2 N2) ∧
    (∀ (N : Nat) (L1 S1 L2 S2 : Board), isRect L1 N N → isRect S1 N N → isRect L2 N N →
      isRect S2 N N →
      (∀ r c, r < N → c < N → readCell L1 r c = readCell L2 r c) →
      (∀ r c, r < N → c < N → readCell S1 r c = readCell S2 r c) →
      ∃ t, generation ⟨L1, S1⟩ N = some t ∧ generation ⟨L2, S2⟩ N = some t ∧
        t.liveBoard = t.snapshotBoard ∧ isRect t.liveBoard N N) := by
  refine ⟨fun s1 s2 N1 N2 hl hs hN => ?_, fun N L1 S1 L2 S2 h1 h2 h3 h4 hL hS => ?_⟩
  · obtain ⟨l1, t1⟩ := s1
    obtain ⟨l2, t2⟩ := s2
    simp only at hl hs
    rw [hl, hs, hN]
  · have e1 : L1 = L2 := board_ext h1 h3 hL
    have e2 : S1 = S2 := board_ext h2 h4 hS
    subst e1 e2
    obtain ⟨S', ht, hS', -⟩ := tick_spec h1 h2
    exact ⟨⟨S', S'⟩, by simp only [generation, ht, copySnapshotBoard_spec h1 hS'],
      by simp only [generation, ht, copySnapshotBoard_spec h1 hS'], rfl, hS'⟩

/-- The theorem `generation_deterministic` at the `5×5` blinker grid with an all-dead
snapshot. -/
theorem generation_deterministic_witness :
    generation ⟨blinker5, dead5⟩ 5 = generation ⟨blinker5, dead5⟩ 5 ∧
    isRect blinker5 5 5 ∧ isRect dead5 5 5 ∧
    ∃ t, generation ⟨blinker5, dead5⟩ 5 = some t ∧ generation ⟨blinker5, dead5⟩ 5 = some t ∧
      t.liveBoard = t.snapshotBoard ∧ isRect t.liveBoard 5 5 :=
  ⟨generation_deterministic.1 ⟨blinker5, dead5⟩ ⟨blinker5, dead5⟩ 5 5 rfl rfl rfl,
    by decide, by decide,
    generation_deterministic.2 5 blinker5 dead5 blinker5 dead5 (by decide) (by decide)
      (by decide) (by decide) (fun _ _ _ _ => rfl) (fun _ _ _ _ => rfl)⟩

/-- C17 (the code departs from it): with `boardSize = 3` neither mode of `main` reaches
the end of its loop.  The grids `main` constructs have rows of 2 cells; in random mode
`createLiveBoard`, in file mode `seedFromFile`, accesses the cell `[0][2]` before the loop
is entered.  The same branch on grids of `3×3` cells does leave the loop with
`iteration = 10000`.  For no stream and no size does either mode of `main` leave the loop:
it throws for `boardSize ≤ 0` and indexes outside a row for `boardSize ≥ 1`. -/
theorem main_three_never_loops :
    (isRect (allocBoard 3) 3 2 ∧
      createLiveBoard (allocBoard 3) 3 = none ∧
      mainRandom (fun k => k) 3 = none ∧
      seedFromFile (allocBoard 3) ⟨"l l l l O l l l l".toList, false⟩ 3 = none ∧
      mainFile ⟨"l l l l O l l l l".toList, false⟩ 3 = none) ∧
    (∃ r, randomMode (fun k => k) walls3 walls3 3 = some r ∧ r.1 = 10000) ∧
    (∀ (rand : Nat → Nat) (boardSize : Int),
      mainRandom rand boardSize = if boardSize ≤ 0 then some Outcome.lengthError else none) ∧
    (∀ (inf : IStream) (boardSize : Int),
      mainFile inf boardSize =
        if inf.failed then some Outcome.fileFailed
        else if boardSize ≤ 0 then some Outcome.lengthError else none) := by
  refine ⟨by decide, ?_, mainRandom_eq, mainFile_eq⟩
  obtain ⟨_, _, -, -, -, h⟩ := randomMode_spec (N := 3) (fun k => k)
    (show isRect walls3 3 3 by decide) (show isRect walls3 3 3 by decide)
  exact ⟨_, h, rfl⟩

/-- C18: loop invariant of `main`.  From `N×N` grids, after the initial `copyLiveBoard` and
after each of the first `k` generation steps, for every `k`, `liveBoard` and
`snapshotBoard` are one and the same `N×N` grid `G`; the body of the loop run on them
returns again with two equal grids `G'`; and every cell `tick` does not assign (outside the
interior, or `'.'` with a neighbour count other than 3, or a symbol other than `'O'` and
`'.'`) has in `G'` the value it has in `G`, the current generation. -/
theorem loop_boards_equal (N : Nat) (L S : Board) (hL : isRect L N N) (hS : isRect S N N)
    (k : Nat) :
    ∃ s0 G G', copyLiveBoard ⟨L, S⟩ N = some s0 ∧ generations N k s0 = some ⟨G, G⟩ ∧
      isRect G N N ∧ generation ⟨G, G⟩ N = some ⟨G', G'⟩ ∧
      (∀ i out, ∃ out', loopBody N i ⟨⟨G, G⟩, out⟩ = some ⟨⟨G', G'⟩, out'⟩) ∧
      ∀ r c, r < N → c < N →
        (¬ interior N r c ∨ (readCell G r c = some '.' ∧ aliveNeighbours G r c ≠ 3) ∨
          (readCell G r c ≠ some 'O' ∧ readCell G r c ≠ some '.')) →
        readCell G' r c = readCell G r c := by
  obtain ⟨G, hg, hG, -⟩ := generations_keep k hL
  obtain ⟨G', hg', hG', hc⟩ := generation_spec hG
  refine ⟨_, G, G', copyLiveBoard_spec hL hS, hg, hG, hg', fun i out => ?_,
    fun r c hr hc' h => ?_⟩
  · obtain ⟨G2, h1, -, h2⟩ := loopBody_spec hG i out
    rw [hg', Option.some.injEq, Boards.mk.injEq] at h1
    obtain ⟨rfl, -⟩ := h1
    exact ⟨_, h2⟩
  · rw [hc]
    by_cases hi : interior N r c
    · rw [if_pos hi]
      obtain ⟨v, hv⟩ := readCell_isSome (r := r) (c := c) hG hr hc'
      rw [cellAt_eq hv, hv]
      rcases h with h | ⟨h1, h2⟩ | ⟨h1, h2⟩
      · exact absurd hi h
      · rw [hv, Option.some.injEq] at h1
        subst h1
        simp [tickValue, h2]
      · rw [hv] at h1 h2
        have n1 : v ≠ 'O' := fun e => h1 (by rw [e])
        have n2 : v ≠ '.' := fun e => h2 (by rw [e])
        simp [tickValue, n1, n2]
    · rw [if_neg hi]

/-- The theorem `loop_boards_equal` on the `5×5` blinker grid with an all-dead snapshot,
at the start of iteration 10. -/
theorem loop_boards_equal_witness :
    isRect blinker5 5 5 ∧ isRect dead5 5 5 ∧
    ∃ s0 G G', copyLiveBoard ⟨blinker5, dead5⟩ 5 = some s0 ∧
      generations 5 9 s0 = some ⟨G, G⟩ ∧
      isRect G 5 5 ∧ generation ⟨G, G⟩ 5 = some ⟨G', G'⟩ ∧
      (∀ i out, ∃ out', loopBody 5 i ⟨⟨G, G⟩, out⟩ = some ⟨⟨G', G'⟩, out'⟩) ∧
      ∀ r c, r < 5 → c < 5 →
        (¬ interior 5 r c ∨ (readCell G r c = some '.' ∧ aliveNeighbours G r c ≠ 3) ∨
          (readCell G r c ≠ some 'O' ∧ readCell G r c ≠ some '.')) →
        readCell G' r c = readCell G r c :=
  ⟨by decide, by decide, loop_boards_equal 5 blinker5 dead5 (by decide) (by decide) 9⟩

/-- C19: well-formedness is preserved.  If an `N×N` grid has an `'l'` border and every
interior cell is `'O'` or `'.'`, then `tick` followed by `copySnapshotBoard`, started with
`snapshotBoard = liveBoard`, returns a grid with an `'l'` border whose interior cells are
all `'O'` or `'.'`; the same holds after any number of steps. -/
theorem generation_well_formed (N : Nat) (L : Board) (hL : wellFormed L N) :
    (∃ L', generation ⟨L, L⟩ N = some ⟨L', L'⟩ ∧ wellFormed L' N) ∧
    ∀ k, ∃ G, generations N k ⟨L, L⟩ = some ⟨G, G⟩ ∧ wellFormed G N := by
  refine ⟨wellFormed_generation hL, fun k => ?_⟩
  induction k generalizing L with
  | zero => exact ⟨L, rfl, hL⟩
  | succ k ih =>
    obtain ⟨L1, hg, h1⟩ := wellFormed_generation hL
    obtain ⟨G, hk, hG⟩ := ih L1 h1
    exact ⟨G, by simp only [generations, hg, hk], hG⟩

/-- The theorem `generation_well_formed` on the `10×10` glider grid. -/
theorem generation_well_formed_witness :
    wellFormed glider10 10 ∧
    (∃ L', generation ⟨glider10, glider10⟩ 10 = some ⟨L', L'⟩ ∧ wellFormed L' 10) ∧
    ∀ k, ∃ G, generations 10 k ⟨glider10, glider10⟩ = some ⟨G, G⟩ ∧ wellFormed G 10 :=
  ⟨by decide, generation_well_formed 10 glider10 (by decide)⟩

/-- C20: round trip.  For every `N×N` grid whose symbols are not whitespace, the text
`printLiveBoard` writes splits into exactly `N·N` whitespace-delimited tokens, each a
single character, the symbols of the grid in row-major order; and `seedFromFile` reading
that text into any `N×N` grid returns the printed grid, cell for cell, with the stream
still good and no token left. -/
theorem print_seed_round_trip (N : Nat) (b b0 : Board) (hb : isRect b N N)
    (h0 : isRect b0 N N) (hws : ∀ row ∈ b, ∀ v ∈ row, isspace v = false) :
    ∃ d, printLiveBoard ⟨b, []⟩ N = some d ∧
      tokens d.cout = b.flatten.map (fun v => [v]) ∧ (tokens d.cout).length = N * N ∧
      (∀ t ∈ tokens d.cout, t.length = 1) ∧
      ∃ rest, seedFromFile b0 ⟨d.cout, false⟩ N = some (b, ⟨rest, false⟩) ∧
        tokens rest = [] := by
  have htok : tokens ([] ++ b.flatMap (fun row => printedLine row ++ ['\n'])) =
      b.flatten.map (fun v => [v]) := by
    rw [List.nil_append]; exact tokens_printed b hws
  refine ⟨_, printLiveBoard_spec hb [], htok, ?_, ?_, ?_⟩
  · rw [htok, List.length_map, flatten_length hb]
  · intro t ht
    rw [htok] at ht
    obtain ⟨v, -, rfl⟩ := List.mem_map.mp ht
    rfl
  · obtain ⟨b', rest, hs, hR, hrest, hC⟩ := seedFromFile_spec h0
      ([] ++ b.flatMap (fun row => printedLine row ++ ['\n'])) b.flatten []
      (flatten_length hb) (by rw [htok, List.append_nil])
    have e : b' = b := board_ext hR hb (fun r c hr hc => by
      rw [hC r c hr hc, flatten_getElem? hb hc])
    subst e
    exact ⟨rest, hs, hrest⟩

/-- The theorem `print_seed_round_trip` on the `5×5` blinker grid, read back into the
all-dead grid. -/
theorem print_seed_round_trip_witness :
    isRect blinker5 5 5 ∧ isRect dead5 5 5 ∧
    (∀ row ∈ blinker5, ∀ v ∈ row, isspace v = false) ∧
    ∃ d, printLiveBoard ⟨blinker5, []⟩ 5 = some d ∧
      tokens d.cout = blinker5.flatten.map (fun v => [v]) ∧
      (tokens d.cout).length = 5 * 5 ∧ (∀ t ∈ tokens d.cout, t.length = 1) ∧
      ∃ rest, seedFromFile dead5 ⟨d.cout, false⟩ 5 = some (blinker5, ⟨rest, false⟩) ∧
        tokens rest = [] :=
  ⟨by decide, by decide, by decide,
    print_seed_round_trip 5 blinker5 dead5 (by decide) (by decide) (by decide)⟩

end Life
